import Mathlib

/-!
# Personal Expense Tracker: the ledger widget of `src/app.js`

A shallow embedding of the widget's state and of the functions that read or
change it, followed by the properties proved about them.

Conventions of the embedding.

* JavaScript numbers are modelled by `JsNum`: `NaN`, the two infinities, and
  finite doubles kept as the rational they are equal to.  Every operation that
  rounds in JavaScript rounds here, through `toDouble` (nearest double, ties
  to even, subnormals, overflow to an infinity).  The sign of zero is not
  kept: no text printed and no comparison made by `app.js` depends on it
  (`toFixed` prints `-0` as `0.00`, the sums start from `+0`).
* The browser is modelled by explicit inputs: the text of the form fields,
  the clock and random values read by `generateID`, and one boolean per
  `localStorage.setItem` call telling whether the write succeeds.
* The page is modelled by the fields of `Widget` that the functions write:
  the rendered rows, the three totals, the notifications, the active filter
  button and the persisted slot.
-/

namespace ExpenseTracker

/-! ## JavaScript numbers -/

/-- A JavaScript number: `NaN`, `+Infinity`, `-Infinity` or a finite value. -/
inductive JsNum where
  | nan
  | posInf
  | negInf
  | fin (q : Rat)
  deriving DecidableEq

/-- The power `2 ^ e` for an integer exponent. -/
def pow2 (e : Int) : Rat :=
  if 0 ≤ e then ((2 ^ e.toNat : Nat) : Rat) else mkRat 1 (2 ^ (-e).toNat)

/-- The number of halvings that bring `n` below 2, within the given budget. -/
def halvings : Nat → Nat → Nat
  | 0, _ => 0
  | fuel + 1, n => if n < 2 then 0 else halvings fuel (n / 2) + 1

/-- For `a > 0`, the integer `e` with `2 ^ e <= a < 2 ^ (e + 1)`. -/
def floorLog2 (a : Rat) : Int :=
  let e0 : Int := (halvings a.num.natAbs a.num.natAbs : Int) - (halvings a.den a.den : Int)
  if a < pow2 e0 then e0 - 1 else e0

/-- The integer nearest to `y`, the even one on a tie. -/
def roundHalfEven (y : Rat) : Int :=
  let f := Rat.floor y
  if y - f < 1 / 2 then f
  else if 1 / 2 < y - f then f + 1
  else if f % 2 = 0 then f else f + 1

/-- The double nearest to the real number `q`: 53 significant bits, ties to
even, a fixed spacing of `2 ^ -1074` below `2 ^ -1022`, an infinity from
`2 ^ 1024` on. -/
def toDouble (q : Rat) : JsNum :=
  if q = 0 then JsNum.fin 0
  else
    let e := max (floorLog2 |q|) (-1022)
    let r := (roundHalfEven (|q| / pow2 (e - 52)) : Rat) * pow2 (e - 52)
    if pow2 1024 ≤ r then (if q < 0 then JsNum.negInf else JsNum.posInf)
    else JsNum.fin (if q < 0 then -r else r)

namespace JsNum

/-- The global `isNaN` on a number. -/
def isNaN : JsNum → Bool
  | nan => true
  | _ => false

/-- Unary minus. -/
def neg : JsNum → JsNum
  | nan => nan
  | posInf => negInf
  | negInf => posInf
  | fin q => fin (-q)

/-- The operator `+` on two numbers: the exact sum, rounded to a double. -/
def add : JsNum → JsNum → JsNum
  | nan, _ => nan
  | posInf, nan => nan
  | posInf, negInf => nan
  | posInf, _ => posInf
  | negInf, nan => nan
  | negInf, posInf => nan
  | negInf, _ => negInf
  | fin _, nan => nan
  | fin _, posInf => posInf
  | fin _, negInf => negInf
  | fin a, fin b => toDouble (a + b)

/-- The function `Math.abs`. -/
def abs : JsNum → JsNum
  | nan => nan
  | posInf => posInf
  | negInf => posInf
  | fin q => fin |q|

/-- The comparison `a > 0`. -/
def gtZero : JsNum → Bool
  | nan => false
  | posInf => true
  | negInf => false
  | fin q => decide (0 < q)

/-- The comparison `a < 0`. -/
def ltZero : JsNum → Bool
  | nan => false
  | posInf => false
  | negInf => true
  | fin q => decide (q < 0)

/-- The comparison `a >= 0`. -/
def geZero : JsNum → Bool
  | nan => false
  | posInf => true
  | negInf => false
  | fin q => decide (0 ≤ q)

/-- The number value of a mathematical value: a finite one is rounded to the
nearest double. -/
def round : JsNum → JsNum
  | fin q => toDouble q
  | x => x

end JsNum

/-! ## Numbers to text -/

/-- The character of a decimal digit. -/
def digitChar (d : Nat) : Char := Char.ofNat (48 + d)

/-- Put the decimal digits of `n` in front of `acc`, within the given budget. -/
def natDigitsAux : Nat → Nat → List Char → List Char
  | 0, _, acc => acc
  | fuel + 1, n, acc =>
    if n < 10 then digitChar n :: acc
    else natDigitsAux fuel (n / 10) (digitChar (n % 10) :: acc)

/-- The decimal digits of a natural number, most significant first. -/
def natDigits (n : Nat) : List Char := natDigitsAux (n + 1) n []

/-- The integer `n` that `toFixed(2)` picks for a value `a >= 0`: the one for
which `n / 100` is closest to `a`, the larger one on a tie. -/
def roundCents (a : Rat) : Nat := (Rat.floor (a * 100 + 1 / 2)).toNat

/-- The digits `s` and the position `n` that `Number::toString` picks for a
positive integer `x` of `nd` digits, trying `k = 1, 2, ...` significant
digits: the first `k` for which a `k`-digit `s` exists with `s * 10 ^ (n - k)`
rounding to `x`, and of two such `s` the one nearer to `x`. -/
def shortestDigits (x nd : Nat) : Nat → Nat → List Char × Nat
  | 0, _ => (natDigits x, nd)
  | fuel + 1, k =>
    let p := 10 ^ (nd - k)
    let lo := x / p
    let hi := lo + 1
    let okLo : Bool := toDouble ((lo * p : Nat) : Rat) = JsNum.fin (x : Rat)
    let okHi : Bool := toDouble ((hi * p : Nat) : Rat) = JsNum.fin (x : Rat)
    let hiOut := if hi = 10 ^ k then (['1'], nd + 1) else (natDigits hi, nd)
    if okLo && okHi then (if x - lo * p ≤ hi * p - x then (natDigits lo, nd) else hiOut)
    else if okLo then (natDigits lo, nd)
    else if okHi then hiOut
    else shortestDigits x nd fuel (k + 1)

/-- The text `Number::toString` gives for a positive integer-valued number:
the shortest digits that read back as the number, followed by zeros up to 21
digits and in exponent form beyond. -/
def integerToString (x : Nat) : List Char :=
  if x = 0 then ['0']
  else
    let nd := (natDigits x).length
    let ds := (shortestDigits x nd nd 1).1
    let n := (shortestDigits x nd nd 1).2
    if n ≤ 21 then ds ++ List.replicate (n - ds.length) '0'
    else
      match ds with
      | [] => []
      | [d] => d :: 'e' :: '+' :: natDigits (n - 1)
      | d :: rest => d :: '.' :: rest ++ 'e' :: '+' :: natDigits (n - 1)

/-- The method `Number.prototype.toFixed` with argument 2. -/
def toFixed2 : JsNum → String
  | JsNum.nan => "NaN"
  | JsNum.posInf => "Infinity"
  | JsNum.negInf => "-Infinity"
  | JsNum.fin q =>
    let s := if q < 0 then ['-'] else []
    let x := |q|
    if 10 ^ 21 ≤ x then String.mk (s ++ integerToString (Rat.floor x).toNat)
    else
      let n := roundCents x
      String.mk (s ++ natDigits (n / 100) ++ ['.', digitChar (n / 10 % 10), digitChar (n % 10)])

/-! ## Text to numbers -/

/-- The characters removed by `String.prototype.trim` and skipped by
`parseFloat` and `parseInt`: the white space and line terminator code points of
ECMAScript. -/
def isJsWhiteSpace (c : Char) : Bool :=
  let n := c.toNat
  n = 0x09 || n = 0x0A || n = 0x0B || n = 0x0C || n = 0x0D || n = 0x20 ||
  n = 0xA0 || n = 0x1680 || (0x2000 ≤ n && n ≤ 0x200A) || n = 0x2028 ||
  n = 0x2029 || n = 0x202F || n = 0x205F || n = 0x3000 || n = 0xFEFF

/-- Drop the leading white space of a character list. -/
def trimStart : List Char → List Char
  | [] => []
  | c :: cs => if isJsWhiteSpace c then trimStart cs else c :: cs

/-- The method `String.prototype.trim`. -/
def jsTrim (s : String) : String :=
  String.mk (trimStart (trimStart s.toList).reverse).reverse

/-- Split off the longest run of decimal digits at the front. -/
def takeDigits : List Char → List Char × List Char
  | [] => ([], [])
  | c :: cs =>
    if c.isDigit then ((takeDigits cs).1.cons c, (takeDigits cs).2) else ([], c :: cs)

/-- The value of a run of decimal digits. -/
def digitsVal (ds : List Char) : Nat :=
  ds.foldl (fun n c => 10 * n + (c.toNat - 48)) 0

/-- The exponent part `e±ddd` at the front of the text, when there is a
complete one; `0` otherwise. -/
def parseExponent : List Char → Int
  | [] => 0
  | c :: rest =>
    if c = 'e' || c = 'E' then
      match rest with
      | '+' :: r => if (takeDigits r).1 = [] then 0 else (digitsVal (takeDigits r).1 : Int)
      | '-' :: r => if (takeDigits r).1 = [] then 0 else -(digitsVal (takeDigits r).1 : Int)
      | r => if (takeDigits r).1 = [] then 0 else (digitsVal (takeDigits r).1 : Int)
    else 0

/-- The value `mantissa * 10 ^ exponent`. -/
def scale10 (mantissa : Nat) (exponent : Int) : Rat :=
  if 0 ≤ exponent then ((mantissa * 10 ^ exponent.toNat : Nat) : Rat)
  else mkRat (mantissa : Int) (10 ^ (-exponent).toNat)

/-- The mathematical value of the longest unsigned decimal literal at the
front of the text: `Infinity`, `ddd`, `ddd.`, `ddd.ddd` or `.ddd`, each of the
last four with an optional exponent part.  `none` when the text starts with
none of them. -/
def unsignedValue (cs : List Char) : Option JsNum :=
  if "Infinity".toList.isPrefixOf cs then some JsNum.posInf
  else
    let ip := (takeDigits cs).1
    match (takeDigits cs).2 with
    | '.' :: r =>
      let fp := (takeDigits r).1
      if ip = [] && fp = [] then none
      else some (JsNum.fin
        (scale10 (digitsVal (ip ++ fp)) (parseExponent (takeDigits r).2 - (fp.length : Int))))
    | r => if ip = [] then none else some (JsNum.fin (scale10 (digitsVal ip) (parseExponent r)))

/-- The mathematical value of the longest signed decimal literal at the front
of the text, leading white space skipped; `NaN` when there is no literal. -/
def literalValue (s : String) : JsNum :=
  match trimStart s.toList with
  | [] => JsNum.nan
  | c :: cs =>
    if c = '-' then
      match unsignedValue cs with
      | some x => x.neg
      | none => JsNum.nan
    else if c = '+' then (unsignedValue cs).getD JsNum.nan
    else (unsignedValue (c :: cs)).getD JsNum.nan

/-- The global `parseFloat`: the value of the longest decimal literal at the
front, as a double; `NaN` when there is no literal. -/
def parseFloat (s : String) : JsNum :=
  (literalValue s).round

/-- The value of a digit of the given radix, `none` for any other character. -/
def digitOf (radix : Nat) (c : Char) : Option Nat :=
  let n := c.toNat
  let v := if 48 ≤ n && n ≤ 57 then n - 48
    else if 97 ≤ n && n ≤ 122 then n - 87
    else if 65 ≤ n && n ≤ 90 then n - 55
    else radix
  if v < radix then some v else none

/-- Read digits of the given radix from the front; `none` when there is none. -/
def readDigits (radix : Nat) : List Char → Option Nat → Option Nat
  | [], acc => acc
  | c :: cs, acc =>
    match digitOf radix c with
    | some v => readDigits radix cs (some (radix * acc.getD 0 + v))
    | none => acc

/-- The digits part of `parseInt` without a radix argument: radix 16 after a
`0x` or `0X` mark, radix 10 otherwise. -/
def parseIntDigits : List Char → Option Nat
  | '0' :: 'x' :: cs => readDigits 16 cs none
  | '0' :: 'X' :: cs => readDigits 16 cs none
  | cs => readDigits 10 cs none

/-- The global `parseInt` with one argument.  `none` stands for `NaN`. -/
def parseInt (s : String) : Option Int :=
  match trimStart s.toList with
  | '-' :: cs => (parseIntDigits cs).map (fun n => -(n : Int))
  | '+' :: cs => (parseIntDigits cs).map (fun n => (n : Int))
  | cs => (parseIntDigits cs).map (fun n => (n : Int))

/-! ## Data model -/

/-- The `type` of a transaction: the value of the checked radio button of the
form, one of the two strings `"income"` and `"expense"`. -/
inductive TxType where
  | income
  | expense
  deriving DecidableEq

/-- An `id` as the code meets it: a number (what `generateID` returns) or a
text (what a `data-id` attribute or a reloaded list may hold). -/
inductive JsId where
  | num (n : Int)
  | str (s : String)
  deriving DecidableEq

/-- One entry of the `transactions` array. -/
structure Transaction where
  id : JsId
  description : String
  amount : JsNum
  type : TxType
  deriving DecidableEq

/-- The value of `currentFilter`: one of `"all"`, `"income"`, `"expense"`. -/
inductive Filter where
  | all
  | income
  | expense
  deriving DecidableEq

/-- The second argument of `showMessage`. -/
inductive Severity where
  | success
  | error
  deriving DecidableEq

/-- A notification put on the page by `showMessage`. -/
structure Message where
  text : String
  type : Severity
  deriving DecidableEq

/-- A child of the `transactionList` element, an `li` with its class name and
either the text given to `textContent` or the HTML text given to `innerHTML`. -/
inductive Row where
  | text (className : String) (textContent : String)
  | html (className : String) (innerHTML : String)
  deriving DecidableEq

/-- The three texts computed by `updateBalance` (each is shown after `FCFA `
in its element) and whether the balance is given the income colour
(`balance >= 0`). -/
structure Totals where
  balance : String
  income : String
  expense : String
  incomeColor : Bool
  deriving DecidableEq

/-- The state the functions of `app.js` read and write: the two variables
`transactions` and `currentFilter`, the persisted slot `transactions` of
`localStorage` (the list whose serialisation was last written, `none` while
nothing was written), the number of `setItem` calls made on that slot, the
lines sent to `console.error`, and the page. -/
structure Widget where
  transactions : List Transaction
  currentFilter : Filter
  slot : Option (List Transaction)
  writes : Nat
  console : List String
  rows : List Row
  totals : Totals
  activeButtons : List Filter
  formResets : Nat
  messages : List Message
  deriving DecidableEq

/-- What one submit of the form reads from its environment: the two text
fields, the checked type, the value of `Date.now()` (a time value, at most
8.64e15), the value of `Math.floor(Math.random() * 1000)`, and whether the
`setItem` call of this submit succeeds. -/
structure AddInput where
  description : String
  amount : String
  type : TxType
  now : Fin 8640000000000001
  random : Fin 1000
  writeOk : Bool

/-! ## The functions of `app.js` -/

/-- The helper `generateID`: `Date.now() + Math.floor(Math.random() * 1000)`. -/
def generateID (now : Fin 8640000000000001) (random : Fin 1000) : JsId :=
  JsId.num ((now.val + random.val : Nat) : Int)

/-- The helper `showMessage(text, type)`: one more notification on the page. -/
def showMessage (w : Widget) (text : String) (type : Severity) : Widget :=
  { w with messages := w.messages ++ [{ text := text, type := type }] }

/-- The helper `saveTransactions`: try to write the serialised list to the
slot; `true` when the write went through, `false` (and a console line) when
`setItem` threw. -/
def saveTransactions (w : Widget) (writeOk : Bool) : Widget × Bool :=
  if writeOk then
    ({ w with slot := some w.transactions, writes := w.writes + 1 }, true)
  else
    ({ w with writes := w.writes + 1,
              console := w.console ++ ["Failed to save transactions:"] }, false)

/-- The test `t.type === currentFilter` between a type and a filter value. -/
def typeIsFilter : TxType → Filter → Bool
  | TxType.income, Filter.income => true
  | TxType.expense, Filter.expense => true
  | _, _ => false

/-- The text of a type in a template literal. -/
def TxType.text : TxType → String
  | TxType.income => "income"
  | TxType.expense => "expense"

/-- The text of an id in a template literal: the digits of a number, a text
as it is. -/
def JsId.text : JsId → String
  | JsId.num n => String.mk ((if n < 0 then ['-'] else []) ++ integerToString n.natAbs)
  | JsId.str s => s

/-- The row built for one transaction in `updateTransactions`: the class name
and the `innerHTML` template with the description, the sign, the printed
amount and the id spliced in as they are. -/
def renderRow (transaction : Transaction) : Row :=
  let sign := if transaction.type = TxType.income then "+" else "-"
  Row.html ("transaction-item " ++ transaction.type.text)
    ("\n                <div class=\"transaction-details\">" ++
     "\n                    <p class=\"transaction-description\">" ++
     transaction.description ++ "</p>" ++
     "\n                </div>" ++
     "\n                <div class=\"transaction-amount\">" ++
     "\n                    " ++ sign ++ "FCFA " ++ toFixed2 transaction.amount.abs ++
     "\n                </div>" ++
     "\n                <button class=\"delete-btn\" data-id=\"" ++ transaction.id.text ++
     "\">\u00c3\u2014</button>" ++
     "\n            ")

/-- The function `updateTransactions`: empty the list element, pick the
transactions of the current filter, show the placeholder when there is none
and one row per picked transaction otherwise. -/
def updateTransactions (w : Widget) : Widget :=
  let filteredTransactions :=
    if w.currentFilter = Filter.all then w.transactions
    else w.transactions.filter (fun t => typeIsFilter t.type w.currentFilter)
  if filteredTransactions.length = 0 then
    { w with rows := [Row.text "no-transactions" "No transactions found"] }
  else
    { w with rows := filteredTransactions.map renderRow }

/-- The call `xs.reduce((acc, val) => acc + val, 0)`. -/
def reduceSum (xs : List JsNum) : JsNum :=
  xs.foldl (fun acc val => acc.add val) (JsNum.fin 0)

/-- The function `updateBalance`.  The colour test `balance >= 0` compares the
printed balance, read back as a number, with zero. -/
def updateBalance (w : Widget) : Widget :=
  let amounts := w.transactions.map
    (fun t => if t.type = TxType.income then t.amount else t.amount.neg)
  let balance := toFixed2 (reduceSum amounts)
  let income := toFixed2 (reduceSum (amounts.filter (fun a => a.gtZero)))
  let expense := toFixed2 (reduceSum (amounts.filter (fun a => a.ltZero))).abs
  { w with totals :=
      { balance := balance, income := income, expense := expense,
        incomeColor := (parseFloat balance).geZero } }

/-- The function `init`. -/
def init (w : Widget) : Widget :=
  updateBalance (updateTransactions w)

/-- The function `addTransaction`, run on one submit of the form. -/
def addTransaction (w : Widget) (e : AddInput) : Widget :=
  let description := jsTrim e.description
  let amount := parseFloat e.amount
  if description = "" || amount.isNaN then
    showMessage w "Please enter valid description and amount" Severity.error
  else
    let transaction : Transaction :=
      { id := generateID e.now e.random,
        description := description,
        amount := parseFloat (toFixed2 amount),
        type := e.type }
    let pushed := { w with transactions := w.transactions ++ [transaction] }
    match saveTransactions pushed e.writeOk with
    | (saved, true) =>
      showMessage
        { updateBalance (updateTransactions saved) with formResets := saved.formResets + 1 }
        "Transaction added successfully!" Severity.success
    | (failed, false) => failed

/-- The normalisation `typeof id === 'string' ? parseInt(id) : id`; `none`
stands for `NaN`. -/
def normalizeId : JsId → Option Int
  | JsId.num n => some n
  | JsId.str s => parseInt s

/-- The test `a !== b` on two numbers: `NaN` differs from everything. -/
def strictNe : Option Int → Option Int → Bool
  | some a, some b => a != b
  | _, _ => true

/-- The function `deleteTransaction`. -/
def deleteTransaction (w : Widget) (id : JsId) (writeOk : Bool) : Widget :=
  let id := normalizeId id
  let initialLength := w.transactions.length
  let filtered :=
    { w with transactions :=
        w.transactions.filter (fun transaction => strictNe (normalizeId transaction.id) id) }
  if filtered.transactions.length < initialLength then
    match saveTransactions filtered writeOk with
    | (saved, true) =>
      showMessage (updateBalance (updateTransactions saved))
        "Transaction deleted successfully!" Severity.success
    | (failed, false) => showMessage failed "Failed to delete transaction" Severity.error
  else
    showMessage filtered "Failed to delete transaction" Severity.error

/-- The function `updateFilter`. -/
def updateFilter (w : Widget) (filter : Filter) : Widget :=
  updateTransactions { w with currentFilter := filter, activeButtons := [filter] }

/-! ## Runs of the widget -/

/-- A widget with no transaction, nothing persisted and an empty page. -/
def emptyWidget : Widget :=
  { transactions := [], currentFilter := Filter.all, slot := none, writes := 0,
    console := [], rows := [],
    totals := { balance := "0.00", income := "0.00", expense := "0.00",
                incomeColor := true },
    activeButtons := [Filter.all], formResets := 0, messages := [] }

/-- One user action on the list: a submit of the form or a click on a delete
button. -/
inductive Op where
  | add (e : AddInput)
  | delete (id : JsId) (writeOk : Bool)

/-- Run one action. -/
def step (w : Widget) : Op → Widget
  | Op.add e => addTransaction w e
  | Op.delete id writeOk => deleteTransaction w id writeOk

/-- Run a sequence of actions, first to last. -/
def run (w : Widget) (ops : List Op) : Widget :=
  ops.foldl step w

/-- Run a sequence of submits, first to last. -/
def runAdds (w : Widget) (es : List AddInput) : Widget :=
  es.foldl addTransaction w

/-! ## Start-up: reading the persisted slot -/

/-- The exceptions a statement of the start-up code can throw. -/
inductive JsError where
  | syntaxError
  | typeError
  deriving DecidableEq

/-- A value returned by `JSON.parse`. -/
inductive Json where
  | null
  | bool (b : Bool)
  | num (x : JsNum)
  | str (s : String)
  | arr (items : List Json)
  | obj (members : List (String × Json))

/-- The outcome of reading one piece of JSON text: a value and the text left
after it, a syntax error, or the recursion budget of the model used up. -/
inductive Parsed (α : Type) where
  | ok (value : α) (rest : List Char)
  | bad
  | outOfFuel

/-- Skip the four white space characters of the JSON grammar. -/
def skipJsonWs : List Char → List Char
  | [] => []
  | c :: cs => if c = ' ' || c = '\t' || c = '\n' || c = '\r' then skipJsonWs cs else c :: cs

/-- The value of a hexadecimal digit. -/
def hexVal (c : Char) : Option Nat := digitOf 16 c

/-- Read a JSON string after its opening quote: plain characters from U+0020
on, the two-character escapes and `\uXXXX`, up to the closing quote. -/
def parseJsonString : List Char → List Char → Parsed String
  | [], _ => Parsed.bad
  | '"' :: cs, acc => Parsed.ok (String.mk acc.reverse) cs
  | '\\' :: '"' :: cs, acc => parseJsonString cs ('"' :: acc)
  | '\\' :: '\\' :: cs, acc => parseJsonString cs ('\\' :: acc)
  | '\\' :: '/' :: cs, acc => parseJsonString cs ('/' :: acc)
  | '\\' :: 'b' :: cs, acc => parseJsonString cs (Char.ofNat 8 :: acc)
  | '\\' :: 'f' :: cs, acc => parseJsonString cs (Char.ofNat 12 :: acc)
  | '\\' :: 'n' :: cs, acc => parseJsonString cs ('\n' :: acc)
  | '\\' :: 'r' :: cs, acc => parseJsonString cs ('\r' :: acc)
  | '\\' :: 't' :: cs, acc => parseJsonString cs ('\t' :: acc)
  | '\\' :: 'u' :: a :: b :: c :: d :: cs, acc =>
    match hexVal a, hexVal b, hexVal c, hexVal d with
    | some x, some y, some z, some t =>
      parseJsonString cs (Char.ofNat (((x * 16 + y) * 16 + z) * 16 + t) :: acc)
    | _, _, _, _ => Parsed.bad
  | '\\' :: _, _ => Parsed.bad
  | c :: cs, acc => if c.toNat < 0x20 then Parsed.bad else parseJsonString cs (c :: acc)

/-- Read the signed digits of the exponent part of a JSON number, after its
`e`, for a mantissa whose last `shift` digits are fractional. -/
def parseJsonExponent (mantissa : Nat) (shift : Int) : List Char → Parsed Rat
  | '+' :: r =>
    if (takeDigits r).1 = [] then Parsed.bad
    else Parsed.ok (scale10 mantissa ((digitsVal (takeDigits r).1 : Int) - shift)) (takeDigits r).2
  | '-' :: r =>
    if (takeDigits r).1 = [] then Parsed.bad
    else Parsed.ok (scale10 mantissa (-(digitsVal (takeDigits r).1 : Int) - shift)) (takeDigits r).2
  | r =>
    if (takeDigits r).1 = [] then Parsed.bad
    else Parsed.ok (scale10 mantissa ((digitsVal (takeDigits r).1 : Int) - shift)) (takeDigits r).2

/-- Read the part of a JSON number after its optional minus sign: an integer
part without a leading zero, an optional fraction, an optional exponent. -/
def parseJsonUnsigned (cs : List Char) : Parsed Rat :=
  let ip := match cs with
    | '0' :: _ => ['0']
    | _ => (takeDigits cs).1
  if ip = [] then Parsed.bad
  else
    match cs.drop ip.length with
    | '.' :: r =>
      let fp := (takeDigits r).1
      if fp = [] then Parsed.bad
      else
        match (takeDigits r).2 with
        | 'e' :: r2 => parseJsonExponent (digitsVal (ip ++ fp)) (fp.length : Int) r2
        | 'E' :: r2 => parseJsonExponent (digitsVal (ip ++ fp)) (fp.length : Int) r2
        | r2 => Parsed.ok (scale10 (digitsVal (ip ++ fp)) (-(fp.length : Int))) r2
    | 'e' :: r => parseJsonExponent (digitsVal ip) 0 r
    | 'E' :: r => parseJsonExponent (digitsVal ip) 0 r
    | r => Parsed.ok (scale10 (digitsVal ip) 0) r

mutual

/-- Read one JSON value, white space before it included. -/
def parseJsonValue : Nat → List Char → Parsed Json
  | 0, _ => Parsed.outOfFuel
  | fuel + 1, cs =>
    match skipJsonWs cs with
    | 'n' :: 'u' :: 'l' :: 'l' :: r => Parsed.ok Json.null r
    | 't' :: 'r' :: 'u' :: 'e' :: r => Parsed.ok (Json.bool true) r
    | 'f' :: 'a' :: 'l' :: 's' :: 'e' :: r => Parsed.ok (Json.bool false) r
    | '"' :: r =>
      match parseJsonString r [] with
      | Parsed.ok s r2 => Parsed.ok (Json.str s) r2
      | Parsed.bad => Parsed.bad
      | Parsed.outOfFuel => Parsed.outOfFuel
    | '[' :: r =>
      match skipJsonWs r with
      | ']' :: r2 => Parsed.ok (Json.arr []) r2
      | r2 =>
        match parseJsonItems fuel r2 with
        | Parsed.ok items r3 => Parsed.ok (Json.arr items) r3
        | Parsed.bad => Parsed.bad
        | Parsed.outOfFuel => Parsed.outOfFuel
    | '{' :: r =>
      match skipJsonWs r with
      | '}' :: r2 => Parsed.ok (Json.obj []) r2
      | r2 =>
        match parseJsonMembers fuel r2 with
        | Parsed.ok members r3 => Parsed.ok (Json.obj members) r3
        | Parsed.bad => Parsed.bad
        | Parsed.outOfFuel => Parsed.outOfFuel
    | '-' :: r =>
      match parseJsonUnsigned r with
      | Parsed.ok q r2 => Parsed.ok (Json.num (toDouble (-q))) r2
      | Parsed.bad => Parsed.bad
      | Parsed.outOfFuel => Parsed.outOfFuel
    | r =>
      match parseJsonUnsigned r with
      | Parsed.ok q r2 => Parsed.ok (Json.num (toDouble q)) r2
      | Parsed.bad => Parsed.bad
      | Parsed.outOfFuel => Parsed.outOfFuel

/-- Read the elements of a non-empty array up to its closing bracket. -/
def parseJsonItems : Nat → List Char → Parsed (List Json)
  | 0, _ => Parsed.outOfFuel
  | fuel + 1, cs =>
    match parseJsonValue fuel cs with
    | Parsed.ok v r =>
      match skipJsonWs r with
      | ',' :: r2 =>
        match parseJsonItems fuel r2 with
        | Parsed.ok vs r3 => Parsed.ok (v :: vs) r3
        | Parsed.bad => Parsed.bad
        | Parsed.outOfFuel => Parsed.outOfFuel
      | ']' :: r2 => Parsed.ok [v] r2
      | _ => Parsed.bad
    | Parsed.bad => Parsed.bad
    | Parsed.outOfFuel => Parsed.outOfFuel

/-- Read the members of a non-empty object up to its closing brace. -/
def parseJsonMembers : Nat → List Char → Parsed (List (String × Json))
  | 0, _ => Parsed.outOfFuel
  | fuel + 1, cs =>
    match skipJsonWs cs with
    | '"' :: r =>
      match parseJsonString r [] with
      | Parsed.ok key r2 =>
        match skipJsonWs r2 with
        | ':' :: r3 =>
          match parseJsonValue fuel r3 with
          | Parsed.ok v r4 =>
            match skipJsonWs r4 with
            | ',' :: r5 =>
              match parseJsonMembers fuel r5 with
              | Parsed.ok kvs r6 => Parsed.ok ((key, v) :: kvs) r6
              | Parsed.bad => Parsed.bad
              | Parsed.outOfFuel => Parsed.outOfFuel
            | '}' :: r5 => Parsed.ok [(key, v)] r5
            | _ => Parsed.bad
          | Parsed.bad => Parsed.bad
          | Parsed.outOfFuel => Parsed.outOfFuel
        | _ => Parsed.bad
      | Parsed.bad => Parsed.bad
      | Parsed.outOfFuel => Parsed.outOfFuel
    | _ => Parsed.bad

end

/-- The call `JSON.parse(text)`: one value with nothing but white space around
it, a `SyntaxError` otherwise.  The outer `none` is the recursion budget of the
model used up, which the budget given here is meant to exclude. -/
def jsonParse (text : String) : Option (Except JsError Json) :=
  match parseJsonValue (2 * text.length + 2) text.toList with
  | Parsed.ok v rest =>
    if skipJsonWs rest = [] then some (Except.ok v) else some (Except.error JsError.syntaxError)
  | Parsed.bad => some (Except.error JsError.syntaxError)
  | Parsed.outOfFuel => none

/-- Whether a value counts as true for the operator `||`. -/
def truthy : Json → Bool
  | Json.null => false
  | Json.bool b => b
  | Json.num x => !(x.isNaN || x = JsNum.fin 0)
  | Json.str s => s != ""
  | Json.arr _ => true
  | Json.obj _ => true

/-- The first statement of the start-up code,
`JSON.parse(localStorage.getItem('transactions')) || []`, on the content of
the slot (`none` when the slot is absent: `getItem` returns `null`, which
`JSON.parse` reads as the text `null`).  The result is the first value of the
variable `transactions`, or the exception that ends the start-up handler. -/
def loadTransactions (slot : Option String) : Option (Except JsError Json) :=
  match jsonParse (slot.getD "null") with
  | some (Except.ok v) => some (Except.ok (if truthy v then v else Json.arr []))
  | some (Except.error e) => some (Except.error e)
  | none => none

/-! ## Definitions used by the statements -/

/-- Whether the number is neither `NaN` nor an infinity. -/
def JsNum.isFinite : JsNum → Bool
  | JsNum.fin _ => true
  | _ => false

/-- The transaction that `addTransaction` builds from an accepted input. -/
def newTransaction (e : AddInput) : Transaction :=
  { id := generateID e.now e.random,
    description := jsTrim e.description,
    amount := parseFloat (toFixed2 (parseFloat e.amount)),
    type := e.type }

/-- Whether an entry is one that `deleteTransaction` drops for the given id:
the filter test `transactionId !== id` is false on it. -/
def matchesId (t : Transaction) (id : JsId) : Bool :=
  !strictNe (normalizeId t.id) (normalizeId id)

/-- The signed amount that `updateBalance` sums for one transaction. -/
def signedAmount (t : Transaction) : JsNum :=
  if t.type = TxType.income then t.amount else t.amount.neg

/-- An amount parsed from the form that is `NaN` (the add is rejected) or
finite of magnitude at most 1,000,000. -/
def withinMillion : JsNum → Bool
  | JsNum.nan => true
  | JsNum.fin q => decide (|q| ≤ 1000000)
  | _ => false

/-- A text whose first character is a decimal digit. -/
def DigitLed (cs : List Char) : Prop :=
  ∃ d rest, d < 10 ∧ cs = digitChar d :: rest

/-- The double nearest to `c` hundredths. -/
def centsNum (c : Int) : JsNum := toDouble ((c : Rat) / 100)

/-! ## Concrete inputs -/

/-- The submit `Salary`, `1000.00`, income. -/
def salary : AddInput :=
  { description := " Salary ", amount := "1000.00", type := TxType.income,
    now := 1730000000000, random := 5, writeOk := true }

/-- The submit `Rent`, `300.00`, expense, one millisecond later, with a random
offset that makes its id the id of `salary`. -/
def rent : AddInput :=
  { description := "Rent", amount := "300.00", type := TxType.expense,
    now := 1730000000001, random := 4, writeOk := true }

/-- The submit `Groceries`, `45.5`, expense, one second after `salary`. -/
def groceries : AddInput :=
  { description := "Groceries", amount := "45.5", type := TxType.expense,
    now := 1730000001000, random := 321, writeOk := true }

/-- The submit `Salary` made while the storage refuses the write. -/
def salaryQuotaExceeded : AddInput :=
  { salary with writeOk := false }

/-- A submit whose amount text is `Infinity`. -/
def bonusInfinity : AddInput :=
  { description := "Bonus", amount := "Infinity", type := TxType.income,
    now := 1730000000000, random := 7, writeOk := true }

/-- A submit whose amount text is `-5`, of type income. -/
def refund : AddInput :=
  { description := "Refund", amount := "-5", type := TxType.income,
    now := 1730000000000, random := 9, writeOk := true }

/-- A submit with a negative amount, of type expense. -/
def negativeExpense : AddInput :=
  { description := "Coffee", amount := "-5", type := TxType.expense,
    now := 1730000000000, random := 11, writeOk := true }

/-- A submit whose amount text is `1.005`, a decimal that no double equals. -/
def halfCent : AddInput :=
  { description := "Stamp", amount := "1.005", type := TxType.expense,
    now := 1730000000000, random := 13, writeOk := true }

/-- The run `Salary`, the click on its delete button, `Rent`. -/
def salaryDeleteRent : List Op :=
  [Op.add salary, Op.delete (JsId.str "1730000000005") true, Op.add rent]

/-- Three submits with whole amounts: `9007199254740992` income, `1` expense,
`1` income. -/
def largeThenUnits : List AddInput :=
  [{ description := "Fund", amount := "9007199254740992", type := TxType.income,
     now := 1730000000000, random := 1, writeOk := true },
   { description := "Fee", amount := "1", type := TxType.expense,
     now := 1730000001000, random := 2, writeOk := true },
   { description := "Tip", amount := "1", type := TxType.income,
     now := 1730000002000, random := 3, writeOk := true }]

/-! ## Rounding to a double -/

theorem halvings_spec (fuel n : Nat) (hn : 1 ≤ n) (hf : n ≤ fuel) :
    2 ^ halvings fuel n ≤ n ∧ n < 2 ^ (halvings fuel n + 1) := by
  induction fuel generalizing n with
  | zero => omega
  | succ fuel ih =>
    unfold halvings
    split_ifs with h
    · constructor <;> simp <;> omega
    · have h2 : 1 ≤ n / 2 := by omega
      have h3 : n / 2 ≤ fuel := by omega
      obtain ⟨a, b⟩ := ih (n / 2) h2 h3
      constructor
      · rw [pow_succ]; omega
      · rw [pow_succ]; omega

theorem pow2_eq (e : Int) : pow2 e = (2 : Rat) ^ e := by
  unfold pow2
  split_ifs with h
  · obtain ⟨n, rfl⟩ := Int.eq_ofNat_of_zero_le h
    simp
  · push_neg at h
    obtain ⟨n, hn⟩ := Int.exists_eq_neg_ofNat h.le
    subst hn
    simp [Rat.mkRat_eq_div]

theorem pow2_pos (e : Int) : 0 < pow2 e := by
  rw [pow2_eq]; positivity

theorem floorLog2_le (a : Rat) (ha : 0 < a) : pow2 (floorLog2 a) ≤ a := by
  unfold floorLog2
  simp only
  split_ifs with h
  · have hnum : 0 < a.num := Rat.num_pos.mpr ha
    have h1 := (halvings_spec a.num.natAbs a.num.natAbs (by omega) le_rfl).1
    have h2 := (halvings_spec a.den a.den a.den_pos le_rfl).2
    rw [pow2_eq]
    have e1 : ((halvings a.num.natAbs a.num.natAbs : Int) - (halvings a.den a.den : Int) - 1) =
        (halvings a.num.natAbs a.num.natAbs : Int) - ((halvings a.den a.den + 1 : Nat) : Int) := by
      push_cast; ring
    rw [e1, zpow_sub₀ (by norm_num), zpow_natCast, zpow_natCast]
    have hq : a = (a.num.natAbs : Rat) / (a.den : Rat) := by
      have : ((a.num.natAbs : Int) : Rat) = (a.num : Rat) := by
        rw [Int.natAbs_of_nonneg hnum.le]
      rw [← Int.cast_natCast, this, Rat.num_div_den]
    have hden : (0 : Rat) < a.den := by exact_mod_cast a.den_pos
    have key : (2 : Rat) ^ halvings a.num.natAbs a.num.natAbs /
        (2 : Rat) ^ (halvings a.den a.den + 1) ≤ (a.num.natAbs : Rat) / (a.den : Rat) := by
      apply div_le_div₀
      · positivity
      · exact_mod_cast h1
      · exact hden
      · exact_mod_cast h2.le
    exact le_of_le_of_eq key hq.symm
  · exact not_lt.mp h

theorem roundHalfEven_near (y : Rat) : |(roundHalfEven y : Rat) - y| ≤ 1 / 2 := by
  have h1 : ((Rat.floor y : Int) : Rat) ≤ y := Int.floor_le y
  have h2 : y < (Rat.floor y : Int) + 1 := Int.lt_floor_add_one y
  unfold roundHalfEven
  simp only
  rw [abs_le]
  split_ifs <;> push_cast <;> constructor <;> linarith

theorem roundHalfEven_nonneg (y : Rat) (hy : 0 ≤ y) : 0 ≤ roundHalfEven y := by
  have h0 : 0 ≤ Rat.floor y := Int.floor_nonneg.mpr hy
  unfold roundHalfEven
  simp only
  split_ifs <;> omega

/-- The rounding error of `toDouble` below the overflow range: at most
`2 ^ -53` of the value, plus `2 ^ -1075` in the subnormal range; the sign is
kept. -/
theorem toDouble_near (q : Rat) (hq : |q| ≤ pow2 1000) :
    ∃ r : Rat, toDouble q = JsNum.fin r ∧ |r - q| ≤ |q| * pow2 (-53) + pow2 (-1075) ∧
      (0 ≤ q → 0 ≤ r) ∧ (q ≤ 0 → r ≤ 0) := by
  by_cases h0 : q = 0
  · subst h0
    refine ⟨0, by simp [toDouble], ?_, fun _ => le_rfl, fun _ => le_rfl⟩
    simp only [sub_zero, abs_zero, zero_mul, zero_add]
    exact (pow2_pos _).le
  · have ha0 : 0 < |q| := abs_pos.mpr h0
    set a := |q| with hadef
    have ha : 0 < a := ha0
    set e := max (floorLog2 a) (-1022) with he
    set u := pow2 (e - 52) with hu
    have hupos : 0 < u := pow2_pos _
    set m := roundHalfEven (a / u) with hm
    have hnear := roundHalfEven_near (a / u)
    have hmnn : 0 ≤ m := roundHalfEven_nonneg _ (by positivity)
    have hmnn' : (0 : Rat) ≤ (m : Rat) := by exact_mod_cast hmnn
    -- distance of the rounded magnitude
    have hdist : |(m : Rat) * u - a| ≤ u / 2 := by
      have : (m : Rat) * u - a = ((m : Rat) - a / u) * u := by
        field_simp
      rw [this, abs_mul, abs_of_pos hupos]
      calc |(m : Rat) - a / u| * u ≤ 1 / 2 * u := by
            apply mul_le_mul_of_nonneg_right hnear hupos.le
        _ = u / 2 := by ring
    -- half an ulp is within the bound
    have hulp : u / 2 ≤ a * pow2 (-53) + pow2 (-1075) := by
      rcases le_total (floorLog2 a) (-1022) with hle | hle
      · have : e = -1022 := by rw [he, max_eq_right hle]
        have hu2 : u / 2 = pow2 (-1075) := by
          rw [hu, this, pow2_eq, pow2_eq]
          rw [show (-1022 - 52 : Int) = -1075 + 1 by norm_num, zpow_add_one₀ (by norm_num)]
          ring
        rw [hu2]
        have : 0 ≤ a * pow2 (-53) := mul_nonneg ha.le (pow2_pos _).le
        linarith
      · have : e = floorLog2 a := by rw [he, max_eq_left hle]
        have hu2 : u / 2 = pow2 (floorLog2 a) * pow2 (-53) := by
          rw [hu, this, pow2_eq, pow2_eq, pow2_eq]
          rw [show (floorLog2 a - 52 : Int) = floorLog2 a + (-53) + 1 by ring,
            zpow_add_one₀ (by norm_num), zpow_add₀ (by norm_num)]
          ring
        rw [hu2]
        have h3 := floorLog2_le a ha
        have h4 : pow2 (floorLog2 a) * pow2 (-53) ≤ a * pow2 (-53) :=
          mul_le_mul_of_nonneg_right h3 (pow2_pos _).le
        have := (pow2_pos (-1075)).le
        linarith
    have hr : (m : Rat) * u < pow2 1024 := by
      have h5 : (m : Rat) * u ≤ a + u / 2 := by
        have := (abs_le.mp hdist).2
        linarith
      have h6 : pow2 (-53) ≤ 1 := by rw [pow2_eq]; norm_num
      have h7 : pow2 (-1075) ≤ 1 := by
        rw [pow2_eq, zpow_neg]
        apply inv_le_one_of_one_le₀
        exact one_le_zpow₀ (by norm_num) (by norm_num)
      have h8 : a * pow2 (-53) ≤ a := by
        calc a * pow2 (-53) ≤ a * 1 := mul_le_mul_of_nonneg_left h6 ha.le
          _ = a := mul_one _
      have h9 : 2 * pow2 1000 + 1 < pow2 1024 := by
        rw [pow2_eq, pow2_eq]
        norm_num
      linarith
    have hT : toDouble q = JsNum.fin (if q < 0 then -((m : Rat) * u) else (m : Rat) * u) := by
      unfold toDouble
      rw [if_neg h0]
      exact if_neg (not_le.mpr hr)
    refine ⟨_, hT, ?_, ?_, ?_⟩
    · split_ifs with hneg
      · have : a = -q := abs_of_neg hneg
        rw [this] at hdist hulp ⊢
        have e1 : -((m : Rat) * u) - q = -((m : Rat) * u - -q) := by ring
        rw [e1, abs_neg]
        linarith
      · have : a = q := abs_of_nonneg (not_lt.mp hneg)
        rw [this] at hdist hulp ⊢
        linarith
    · intro hq0
      rw [if_neg (not_lt.mpr hq0)]
      positivity
    · intro hq0
      have hneg : q < 0 := lt_of_le_of_ne hq0 h0
      rw [if_pos hneg]
      have : 0 ≤ (m : Rat) * u := by positivity
      linarith

/-! ## Digits -/

theorem digitChar_spec (d : Nat) (h : d < 10) :
    (digitChar d).isDigit = true ∧ (digitChar d).toNat - 48 = d ∧
      isJsWhiteSpace (digitChar d) = false ∧ digitChar d ≠ '-' ∧ digitChar d ≠ '+' ∧
      digitChar d ≠ 'I' := by
  interval_cases d <;> decide

theorem digitsVal_append_singleton (ds : List Char) (c : Char) :
    digitsVal (ds ++ [c]) = 10 * digitsVal ds + (c.toNat - 48) := by
  simp [digitsVal, List.foldl_append]

theorem digitsVal_append (ds es : List Char) :
    digitsVal (ds ++ es) = digitsVal ds * 10 ^ es.length + digitsVal es := by
  induction es using List.reverseRecOn with
  | nil => simp [digitsVal]
  | append_singleton es c ih =>
    rw [← List.append_assoc, digitsVal_append_singleton, digitsVal_append_singleton, ih,
      List.length_append, List.length_singleton, pow_succ]
    ring

theorem natDigitsAux_spec (fuel n : Nat) (acc : List Char) (h : n < fuel) :
    ∃ ds : List Char, natDigitsAux fuel n acc = ds ++ acc ∧ ds ≠ [] ∧
      (∀ c ∈ ds, c.isDigit = true) ∧ digitsVal ds = n ∧
      (∃ d rest, d < 10 ∧ ds = digitChar d :: rest) := by
  induction fuel generalizing n acc with
  | zero => omega
  | succ fuel ih =>
    unfold natDigitsAux
    split_ifs with h10
    · refine ⟨[digitChar n], rfl, by simp, ?_, ?_, ⟨n, [], h10, rfl⟩⟩
      · intro c hc
        rw [List.mem_singleton] at hc
        rw [hc]
        exact (digitChar_spec n h10).1
      · simp [digitsVal, (digitChar_spec n h10).2.1]
    · have hlt : n / 10 < fuel := by omega
      obtain ⟨ds, h1, h2, h3, h4, d, rest, hd, h5⟩ := ih (n / 10) (digitChar (n % 10) :: acc) hlt
      have hm : n % 10 < 10 := Nat.mod_lt _ (by norm_num)
      refine ⟨ds ++ [digitChar (n % 10)], ?_, by simp, ?_, ?_, ⟨d, rest ++ [digitChar (n % 10)], hd, ?_⟩⟩
      · rw [h1]; simp
      · intro c hc
        rw [List.mem_append, List.mem_singleton] at hc
        rcases hc with hc | hc
        · exact h3 c hc
        · rw [hc]; exact (digitChar_spec _ hm).1
      · rw [digitsVal_append_singleton, h4, (digitChar_spec _ hm).2.1]
        omega
      · rw [h5]; rfl

theorem natDigits_spec (n : Nat) :
    natDigits n ≠ [] ∧ (∀ c ∈ natDigits n, c.isDigit = true) ∧ digitsVal (natDigits n) = n ∧
      (∃ d rest, d < 10 ∧ natDigits n = digitChar d :: rest) := by
  obtain ⟨ds, h1, h2, h3, h4, h5⟩ := natDigitsAux_spec (n + 1) n [] (by omega)
  rw [List.append_nil] at h1
  unfold natDigits
  rw [h1]
  exact ⟨h2, h3, h4, h5⟩

theorem takeDigits_append (ds rest : List Char) (hds : ∀ c ∈ ds, c.isDigit = true)
    (hrest : ∀ c r, rest = c :: r → c.isDigit = false) :
    takeDigits (ds ++ rest) = (ds, rest) := by
  induction ds with
  | nil =>
    cases rest with
    | nil => rfl
    | cons c r => simp [takeDigits, hrest c r rfl]
  | cons d ds ih =>
    have hd := hds d (List.mem_cons_self d ds)
    have := ih (fun c hc => hds c (List.mem_cons_of_mem d hc))
    simp [takeDigits, hd, this]

/-! ## Reading back a printed number -/

theorem scale10_nonneg (m : Nat) (e : Int) : 0 ≤ scale10 m e := by
  unfold scale10
  split_ifs
  · exact Nat.cast_nonneg _
  · rw [Rat.mkRat_eq_div]
    positivity

theorem unsignedValue_fixed (m d1 d2 : Nat) (h1 : d1 < 10) (h2 : d2 < 10) :
    unsignedValue (natDigits m ++ ['.', digitChar d1, digitChar d2]) =
      some (JsNum.fin (((100 * m + 10 * d1 + d2 : Nat) : Rat) / 100)) := by
  obtain ⟨hne, hdig, hval, d, rest, hd, hcons⟩ := natDigits_spec m
  have htake : takeDigits (natDigits m ++ ['.', digitChar d1, digitChar d2]) =
      (natDigits m, ['.', digitChar d1, digitChar d2]) :=
    takeDigits_append _ _ hdig (by intro c r h; simp at h; rw [← h.1]; decide)
  have htake2 : takeDigits [digitChar d1, digitChar d2] = ([digitChar d1, digitChar d2], []) := by
    have := takeDigits_append [digitChar d1, digitChar d2] [] (by
      intro c hc
      simp at hc
      rcases hc with rfl | rfl
      · exact (digitChar_spec d1 h1).1
      · exact (digitChar_spec d2 h2).1) (by intro c r h; simp at h)
    simpa using this
  have hpre : "Infinity".toList.isPrefixOf
      (natDigits m ++ ['.', digitChar d1, digitChar d2]) = false := by
    rw [hcons]
    have := (digitChar_spec d hd).2.2.2.2.2
    simp [List.isPrefixOf, String.toList, this.symm]
  have hv : digitsVal (natDigits m ++ [digitChar d1, digitChar d2]) = 100 * m + 10 * d1 + d2 := by
    rw [digitsVal_append, hval]
    have : digitsVal [digitChar d1, digitChar d2] = 10 * d1 + d2 := by
      simp [digitsVal, (digitChar_spec d1 h1).2.1, (digitChar_spec d2 h2).2.1]
    rw [this]
    simp
    ring
  unfold unsignedValue
  rw [hpre]
  simp only [htake, htake2, hv, Bool.false_eq_true, if_false]
  have hne2 : ¬ (natDigits m = [] ∧ True) := fun h => hne h.1
  simp [hne, parseExponent, scale10, Rat.mkRat_eq_div]

theorem literalValue_toFixed2 (q : Rat) (hq : |q| < 10 ^ 21) :
    literalValue (toFixed2 (JsNum.fin q)) =
      JsNum.fin (if q < 0 then -((roundCents |q| : Rat) / 100) else (roundCents |q| : Rat) / 100) := by
  set n := roundCents |q| with hn
  have hsplit : 100 * (n / 100) + 10 * (n / 10 % 10) + n % 10 = n := by omega
  have hu := unsignedValue_fixed (n / 100) (n / 10 % 10) (n % 10)
    (Nat.mod_lt _ (by norm_num)) (Nat.mod_lt _ (by norm_num))
  rw [hsplit] at hu
  obtain ⟨_, _, _, d, rest, hd, hcons⟩ := natDigits_spec (n / 100)
  have hnb : ¬ (10 : Rat) ^ 21 ≤ |q| := not_le.mpr hq
  unfold toFixed2
  simp only [hnb, if_false, ← hn]
  unfold literalValue
  by_cases hneg : q < 0
  · simp only [hneg, if_true, String.toList, List.cons_append, List.nil_append,
      List.append_assoc]
    have : trimStart ('-' :: (natDigits (n / 100) ++ ['.', digitChar (n / 10 % 10), digitChar (n % 10)])) =
        '-' :: (natDigits (n / 100) ++ ['.', digitChar (n / 10 % 10), digitChar (n % 10)]) := by
      simp [trimStart, isJsWhiteSpace]
    rw [this]
    simp only [if_true, hu, JsNum.neg]
  · simp only [hneg, if_false, String.toList, List.nil_append, List.append_assoc]
    have hws := (digitChar_spec d hd).2.2.1
    have hm := (digitChar_spec d hd).2.2.2.1
    have hp := (digitChar_spec d hd).2.2.2.2.1
    have : trimStart (natDigits (n / 100) ++ ['.', digitChar (n / 10 % 10), digitChar (n % 10)]) =
        natDigits (n / 100) ++ ['.', digitChar (n / 10 % 10), digitChar (n % 10)] := by
      rw [hcons]
      simp [trimStart, hws]
    rw [this]
    have hu2 := hu
    rw [hcons] at hu2 ⊢
    simp only [List.cons_append, hm, hp, if_false]
    simp only [List.cons_append] at hu2
    rw [hu2]
    rfl

/-! ## Signs -/

theorem toDouble_isNaN (q : Rat) : (toDouble q).isNaN = false := by
  unfold toDouble
  simp only
  split_ifs <;> rfl

theorem toDouble_geZero (q : Rat) (hq : 0 ≤ q) : (toDouble q).geZero = true := by
  unfold toDouble
  have hn : ¬ q < 0 := not_lt.mpr hq
  simp only [hn, if_false]
  split_ifs with h0 h1
  · simp [JsNum.geZero]
  · rfl
  · simp only [JsNum.geZero, decide_eq_true_eq]
    have := roundHalfEven_nonneg (|q| / pow2 (max (floorLog2 |q|) (-1022) - 52))
      (div_nonneg (abs_nonneg q) (pow2_pos _).le)
    have h2 : (0 : Rat) ≤ (roundHalfEven (|q| / pow2 (max (floorLog2 |q|) (-1022) - 52)) : Rat) := by
      exact_mod_cast this
    exact mul_nonneg h2 (pow2_pos _).le

theorem digitLed_natDigits (n : Nat) : DigitLed (natDigits n) :=
  (natDigits_spec n).2.2.2

theorem digitLed_append {cs : List Char} (h : DigitLed cs) (es : List Char) :
    DigitLed (cs ++ es) := by
  obtain ⟨d, rest, hd, rfl⟩ := h
  exact ⟨d, rest ++ es, hd, rfl⟩

theorem digitLed_shortestDigits (x nd fuel k : Nat) :
    DigitLed (shortestDigits x nd fuel k).1 := by
  induction fuel generalizing k with
  | zero => exact digitLed_natDigits x
  | succ fuel ih =>
    have h1 : DigitLed ['1'] := ⟨1, [], by norm_num, rfl⟩
    unfold shortestDigits
    simp only
    split_ifs <;> first | exact digitLed_natDigits _ | exact h1 | exact ih _

theorem digitLed_integerToString (x : Nat) : DigitLed (integerToString x) := by
  unfold integerToString
  simp only
  split_ifs with h0 h21
  · exact ⟨0, [], by norm_num, rfl⟩
  · exact digitLed_append (digitLed_shortestDigits _ _ _ _) _
  · obtain ⟨d, rest, hd, h⟩ := digitLed_shortestDigits x (natDigits x).length
      (natDigits x).length 1
    rw [h]
    cases rest with
    | nil => exact ⟨d, _, hd, rfl⟩
    | cons r rs => exact ⟨d, _, hd, rfl⟩

theorem literalValue_digitLed (cs : List Char) (h : DigitLed cs) :
    ∃ v : Rat, literalValue (String.mk cs) = JsNum.fin v ∧ 0 ≤ v := by
  obtain ⟨d, rest, hd, rfl⟩ := h
  obtain ⟨hdig, _, hws, hm, hp, hI⟩ := digitChar_spec d hd
  have hpre : "Infinity".toList.isPrefixOf (digitChar d :: rest) = false := by
    simp [List.isPrefixOf, String.toList, hI.symm]
  have hip : (takeDigits (digitChar d :: rest)).1 ≠ [] := by
    simp [takeDigits, hdig]
  have hu : ∃ v : Rat, unsignedValue (digitChar d :: rest) = some (JsNum.fin v) ∧ 0 ≤ v := by
    unfold unsignedValue
    rw [hpre]
    simp only [Bool.false_eq_true, if_false]
    split
    · simp only [hip, Bool.and_eq_true, decide_eq_true_eq, false_and, if_false]
      exact ⟨_, rfl, scale10_nonneg _ _⟩
    · simp only [hip, if_false]
      exact ⟨_, rfl, scale10_nonneg _ _⟩
  obtain ⟨v, hv, hv0⟩ := hu
  refine ⟨v, ?_, hv0⟩
  unfold literalValue
  simp only [String.toList, trimStart, hws, Bool.false_eq_true, if_false, hm, hp, hv,
    Option.getD_some]

theorem parseFloat_toFixed2_geZero (x : JsNum) (hn : x.isNaN = false) (hl : x.ltZero = false) :
    (parseFloat (toFixed2 x)).geZero = true := by
  cases x with
  | nan => simp [JsNum.isNaN] at hn
  | posInf => decide
  | negInf => simp [JsNum.ltZero] at hl
  | fin q =>
    simp only [JsNum.ltZero, decide_eq_false_iff_not] at hl
    have hled : ∃ cs, toFixed2 (JsNum.fin q) = String.mk cs ∧ DigitLed cs := by
      unfold toFixed2
      simp only [hl, if_false, List.nil_append]
      split_ifs
      · exact ⟨_, rfl, digitLed_integerToString _⟩
      · exact ⟨_, rfl, digitLed_append (digitLed_natDigits _) _⟩
    obtain ⟨cs, hcs, hd⟩ := hled
    obtain ⟨v, hv, hv0⟩ := literalValue_digitLed cs hd
    rw [hcs, parseFloat, hv]
    exact toDouble_geZero v hv0

theorem floor_eq (q : Rat) : Rat.floor q = ⌊q⌋ := rfl

theorem roundCents_near (a : Rat) (ha : 0 ≤ a) : |(roundCents a : Rat) / 100 - a| ≤ 1 / 200 := by
  have h1 := Int.floor_le (a * 100 + 1 / 2)
  have h2 := Int.lt_floor_add_one (a * 100 + 1 / 2)
  have h0 : 0 ≤ ⌊a * 100 + 1 / 2⌋ := Int.floor_nonneg.mpr (by positivity)
  have hc : ((roundCents a : Nat) : Rat) = ((⌊a * 100 + 1 / 2⌋ : Int) : Rat) := by
    unfold roundCents
    rw [floor_eq]
    have : ((⌊a * 100 + 1 / 2⌋.toNat : Nat) : Int) = ⌊a * 100 + 1 / 2⌋ := Int.toNat_of_nonneg h0
    exact_mod_cast this
  rw [hc, abs_le]
  constructor <;> linarith

/-! ## Sums of amounts in hundredths -/

theorem toDouble_neg (q : Rat) : toDouble (-q) = (toDouble q).neg := by
  unfold toDouble
  by_cases h0 : q = 0
  · subst h0
    simp [JsNum.neg]
  · have h0' : ¬ -q = 0 := by simpa using h0
    rw [if_neg h0, if_neg h0']
    simp only [abs_neg]
    rcases lt_or_gt_of_ne h0 with hneg | hpos
    · have h1 : ¬ -q < 0 := by linarith
      simp only [hneg, h1, if_true, if_false]
      split_ifs <;> simp [JsNum.neg]
    · have h1 : -q < 0 := by linarith
      have h2 : ¬ q < 0 := by linarith
      simp only [h1, h2, if_true, if_false]
      split_ifs <;> simp [JsNum.neg]

theorem pow2_neg53 : pow2 (-53) = 1 / 2 ^ 53 := by
  rw [pow2_eq, zpow_neg, one_div]
  norm_cast

theorem pow2_neg1075_le : pow2 (-1075) ≤ 1 / 2 ^ 100 := by
  rw [pow2_eq, zpow_neg, one_div]
  apply inv_anti₀ (by positivity)
  have : ((2 : Rat) ^ (100 : Nat)) = (2 : Rat) ^ (100 : Int) := by norm_cast
  rw [this]
  exact zpow_le_zpow_right₀ (by norm_num) (by norm_num)

theorem pow2_1000_ge : (2 : Rat) ^ 40 ≤ pow2 1000 := by
  rw [pow2_eq]
  have : ((2 : Rat) ^ (40 : Nat)) = (2 : Rat) ^ (40 : Int) := by norm_cast
  rw [this]
  exact zpow_le_zpow_right₀ (by norm_num) (by norm_num)

/-- Below `2 ^ 40` the rounding error of `toDouble` is at most `2 ^ -53` of the
value plus `2 ^ -100`. -/
theorem toDouble_near_small (q : Rat) (hq : |q| ≤ 2 ^ 40) :
    ∃ r : Rat, toDouble q = JsNum.fin r ∧ |r - q| ≤ |q| / 2 ^ 53 + 1 / 2 ^ 100 ∧
      (0 ≤ q → 0 ≤ r) ∧ (q ≤ 0 → r ≤ 0) := by
  obtain ⟨r, h1, h2, h3, h4⟩ := toDouble_near q (le_trans hq pow2_1000_ge)
  refine ⟨r, h1, ?_, h3, h4⟩
  rw [pow2_neg53] at h2
  have := pow2_neg1075_le
  calc |r - q| ≤ |q| * (1 / 2 ^ 53) + pow2 (-1075) := h2
    _ ≤ |q| / 2 ^ 53 + 1 / 2 ^ 100 := by
      have e : |q| * (1 / 2 ^ 53) = |q| / 2 ^ 53 := by ring
      rw [e]
      linarith

theorem centsNum_spec (c : Int) (hc : |c| ≤ 10 ^ 8) :
    ∃ r : Rat, centsNum c = JsNum.fin r ∧ |r - (c : Rat) / 100| ≤ 1 / 2 ^ 32 ∧
      (0 < c → 0 < r) ∧ (c < 0 → r < 0) ∧ (c = 0 → r = 0) := by
  have hcq : |(c : Rat)| ≤ 10 ^ 8 := by exact_mod_cast hc
  have habs : |(c : Rat) / 100| ≤ 10 ^ 6 := by
    rw [abs_div]
    have : |(100 : Rat)| = 100 := abs_of_pos (by norm_num)
    rw [this, div_le_iff₀ (by norm_num)]
    linarith
  obtain ⟨r, h1, h2, h3, h4⟩ := toDouble_near_small ((c : Rat) / 100)
    (le_trans habs (by norm_num))
  have herr : |(c : Rat) / 100| / 2 ^ 53 + 1 / 2 ^ 100 ≤ 1 / 2 ^ 32 := by
    have : |(c : Rat) / 100| / 2 ^ 53 ≤ 10 ^ 6 / 2 ^ 53 := by
      apply div_le_div_of_nonneg_right habs (by positivity)
    have h5 : (10 : Rat) ^ 6 / 2 ^ 53 + 1 / 2 ^ 100 ≤ 1 / 2 ^ 32 := by norm_num
    linarith
  refine ⟨r, h1, le_trans h2 herr, ?_, ?_, ?_⟩
  · intro hpos
    have hc1 : (1 : Rat) ≤ c := by exact_mod_cast hpos
    have hd : (1 : Rat) / 100 ≤ (c : Rat) / 100 := by linarith
    have := (abs_le.mp (le_trans h2 herr)).1
    have h6 : (1 : Rat) / 2 ^ 32 < 1 / 100 := by norm_num
    linarith
  · intro hneg
    have hc1 : (c : Rat) ≤ -1 := by exact_mod_cast Int.le_sub_one_of_lt hneg
    have hd : (c : Rat) / 100 ≤ -(1 / 100) := by linarith
    have := (abs_le.mp (le_trans h2 herr)).2
    have h6 : (1 : Rat) / 2 ^ 32 < 1 / 100 := by norm_num
    linarith
  · intro hz
    subst hz
    have ha := h3 (by simp)
    have hb := h4 (by simp)
    linarith

theorem foldl_add_near (D : List Int) :
    ∀ (s0 T0 : Rat) (k : Nat), k + D.length ≤ 1000 → (∀ c ∈ D, |c| ≤ 10 ^ 8) →
      |T0| ≤ k * 10 ^ 6 → |s0 - T0| ≤ k / 2 ^ 21 →
      ∃ s : Rat, (D.map centsNum).foldl (fun acc val => acc.add val) (JsNum.fin s0) = JsNum.fin s ∧
        |s - (T0 + ((D.sum : Int) : Rat) / 100)| ≤ ((k + D.length : Nat) : Rat) / 2 ^ 21 := by
  induction D with
  | nil =>
    intro s0 T0 k _ _ _ hs
    refine ⟨s0, rfl, ?_⟩
    simpa using hs
  | cons c D ih =>
    intro s0 T0 k hk hD hT hs
    have hc := hD c (List.mem_cons_self c D)
    obtain ⟨r, hr, hrn, _, _, _⟩ := centsNum_spec c hc
    have hcq : |(c : Rat) / 100| ≤ 10 ^ 6 := by
      have h1 : |(c : Rat)| ≤ 10 ^ 8 := by exact_mod_cast hc
      rw [abs_div, abs_of_pos (by norm_num : (0 : Rat) < 100), div_le_iff₀ (by norm_num)]
      linarith
    have hk' : (k : Rat) ≤ 999 := by
      have : k ≤ 999 := by simp only [List.length_cons] at hk; omega
      exact_mod_cast this
    have hkk : (k : Rat) / 2 ^ 21 ≤ 999 / 2 ^ 21 := by
      apply div_le_div_of_nonneg_right hk' (by positivity)
    -- the exact sum before rounding
    have hy : |s0 + r| ≤ 2 ^ 30 := by
      have e : s0 + r = (s0 - T0) + T0 + (r - (c : Rat) / 100) + (c : Rat) / 100 := by ring
      rw [e]
      have t1 := abs_add ((s0 - T0) + T0 + (r - (c : Rat) / 100)) ((c : Rat) / 100)
      have t2 := abs_add ((s0 - T0) + T0) (r - (c : Rat) / 100)
      have t3 := abs_add (s0 - T0) T0
      have hT' : |T0| ≤ 999 * 10 ^ 6 := by
        calc |T0| ≤ k * 10 ^ 6 := hT
          _ ≤ 999 * 10 ^ 6 := by
            apply mul_le_mul_of_nonneg_right hk' (by positivity)
      have n1 : (999 : Rat) / 2 ^ 21 + 999 * 10 ^ 6 + 1 / 2 ^ 32 + 10 ^ 6 ≤ 2 ^ 30 := by norm_num
      linarith
    obtain ⟨r', hr', hrn', _, _⟩ := toDouble_near_small (s0 + r)
      (le_trans hy (by norm_num))
    have hstep : |r' - (s0 + r)| ≤ 1 / 2 ^ 22 := by
      have h1 : |s0 + r| / 2 ^ 53 ≤ 2 ^ 30 / 2 ^ 53 := by
        apply div_le_div_of_nonneg_right hy (by positivity)
      have n2 : (2 : Rat) ^ 30 / 2 ^ 53 + 1 / 2 ^ 100 ≤ 1 / 2 ^ 22 := by norm_num
      linarith
    have hT2 : |T0 + (c : Rat) / 100| ≤ ((k + 1 : Nat) : Rat) * 10 ^ 6 := by
      have t1 := abs_add T0 ((c : Rat) / 100)
      push_cast
      linarith
    have hs2 : |r' - (T0 + (c : Rat) / 100)| ≤ ((k + 1 : Nat) : Rat) / 2 ^ 21 := by
      have e : r' - (T0 + (c : Rat) / 100) =
          (r' - (s0 + r)) + (s0 - T0) + (r - (c : Rat) / 100) := by ring
      rw [e]
      have t1 := abs_add ((r' - (s0 + r)) + (s0 - T0)) (r - (c : Rat) / 100)
      have t2 := abs_add (r' - (s0 + r)) (s0 - T0)
      have n3 : (1 : Rat) / 2 ^ 22 + 1 / 2 ^ 32 ≤ 1 / 2 ^ 21 := by norm_num
      have e2 : ((k + 1 : Nat) : Rat) / 2 ^ 21 = (k : Rat) / 2 ^ 21 + 1 / 2 ^ 21 := by
        push_cast; ring
      rw [e2]
      linarith
    obtain ⟨s, hs3, hs4⟩ := ih r' (T0 + (c : Rat) / 100) (k + 1)
      (by simp only [List.length_cons] at hk; omega)
      (fun x hx => hD x (List.mem_cons_of_mem c hx)) hT2 hs2
    refine ⟨s, ?_, ?_⟩
    · rw [List.map_cons, List.foldl_cons, hr]
      have : (JsNum.fin s0).add (JsNum.fin r) = JsNum.fin r' := hr'
      rw [this]
      exact hs3
    · have e1 : T0 + (((c :: D).sum : Int) : Rat) / 100 =
          T0 + (c : Rat) / 100 + ((D.sum : Int) : Rat) / 100 := by
        rw [List.sum_cons]; push_cast; ring
      have e2 : k + (c :: D).length = k + 1 + D.length := by
        simp only [List.length_cons]; omega
      rw [e1, e2]
      exact hs4

theorem reduceSum_near (D : List Int) (hlen : D.length ≤ 1000) (hD : ∀ c ∈ D, |c| ≤ 10 ^ 8) :
    ∃ s : Rat, reduceSum (D.map centsNum) = JsNum.fin s ∧
      |s - ((D.sum : Int) : Rat) / 100| ≤ 1 / 2000 := by
  obtain ⟨s, h1, h2⟩ := foldl_add_near D 0 0 0 (by omega) hD (by simp) (by simp)
  refine ⟨s, h1, ?_⟩
  rw [zero_add] at h2
  have h3 : ((0 + D.length : Nat) : Rat) / 2 ^ 21 ≤ 1000 / 2 ^ 21 := by
    apply div_le_div_of_nonneg_right _ (by positivity)
    have : 0 + D.length ≤ 1000 := by omega
    exact_mod_cast this
  have n : (1000 : Rat) / 2 ^ 21 ≤ 1 / 2000 := by norm_num
  linarith

theorem roundCents_eq (a : Rat) (m : Nat) (h : |a - (m : Rat) / 100| ≤ 1 / 2000) :
    roundCents a = m := by
  unfold roundCents
  rw [floor_eq]
  have hf : ⌊a * 100 + 1 / 2⌋ = (m : Int) := by
    rw [Int.floor_eq_iff]
    rw [abs_le] at h
    push_cast
    constructor <;> linarith [h.1, h.2]
  rw [hf]
  simp

theorem literalValue_toFixed2_near (s : Rat) (C : Int) (hC : |C| ≤ 10 ^ 12)
    (h : |s - (C : Rat) / 100| ≤ 1 / 2000) :
    literalValue (toFixed2 (JsNum.fin s)) = JsNum.fin ((C : Rat) / 100) ∧
      literalValue (toFixed2 (JsNum.fin s).abs) = JsNum.fin (|(C : Rat)| / 100) := by
  have hCq : |(C : Rat)| ≤ 10 ^ 12 := by exact_mod_cast hC
  have hCb := abs_le.mp hCq
  have hb := abs_le.mp h
  have hlt : |s| < 10 ^ 21 := by
    rw [abs_lt]
    constructor <;> linarith [hCb.1, hCb.2, hb.1, hb.2]
  have hlt2 : |(|s|)| < 10 ^ 21 := by rwa [abs_abs]
  -- the magnitude is within a twentieth of a hundredth of |C| hundredths
  have hmag : |(|s|) - ((C.natAbs : Nat) : Rat) / 100| ≤ 1 / 2000 := by
    have e : ((C.natAbs : Nat) : Rat) = |(C : Rat)| := by
      rw [Nat.cast_natAbs, Int.cast_abs]
    rw [e]
    have e2 : |(C : Rat)| / 100 = |(C : Rat) / 100| := by
      rw [abs_div, abs_of_pos (by norm_num : (0 : Rat) < 100)]
    rw [e2]
    exact le_trans (abs_abs_sub_abs_le_abs_sub s ((C : Rat) / 100)) h
  have hr := roundCents_eq |s| C.natAbs hmag
  have hnat : ((C.natAbs : Nat) : Rat) = |(C : Rat)| := by
    rw [Nat.cast_natAbs, Int.cast_abs]
  constructor
  · rw [literalValue_toFixed2 s hlt, hr, hnat]
    congr 1
    by_cases hneg : s < 0
    · rw [if_pos hneg]
      have hC0 : (C : Rat) ≤ 0 := by
        have hlt0 : (C : Rat) < 1 := by linarith [hb.1]
        have : C < 1 := by exact_mod_cast hlt0
        have : C ≤ 0 := by omega
        exact_mod_cast this
      rw [abs_of_nonpos hC0]
      ring
    · rw [if_neg hneg]
      have hC0 : (0 : Rat) ≤ (C : Rat) := by
        have hgt0 : (-1 : Rat) < (C : Rat) := by linarith [hb.2, not_lt.mp hneg]
        have : -1 < C := by exact_mod_cast hgt0
        have : 0 ≤ C := by omega
        exact_mod_cast this
      rw [abs_of_nonneg hC0]
  · show literalValue (toFixed2 (JsNum.fin |s|)) = _
    rw [literalValue_toFixed2 |s| hlt2, abs_abs, hr, hnat, if_neg (not_lt.mpr (abs_nonneg s))]

/-! ## The effect of one call -/

theorem updateTransactions_transactions (w : Widget) :
    (updateTransactions w).transactions = w.transactions := by
  unfold updateTransactions
  simp only
  split_ifs <;> rfl

theorem addTransaction_rejected (w : Widget) (e : AddInput)
    (h : jsTrim e.description = "" ∨ (parseFloat e.amount).isNaN = true) :
    addTransaction w e =
      showMessage w "Please enter valid description and amount" Severity.error := by
  unfold addTransaction
  simp only
  rw [if_pos]
  rcases h with h | h <;> simp [h]

theorem addTransaction_accepted (w : Widget) (e : AddInput)
    (hd : jsTrim e.description ≠ "") (hn : (parseFloat e.amount).isNaN = false) :
    (addTransaction w e).transactions = w.transactions ++ [newTransaction e] := by
  unfold addTransaction
  simp only
  rw [if_neg (by simp [hd, hn])]
  cases hw : e.writeOk <;>
    simp [saveTransactions, showMessage, updateBalance, updateTransactions_transactions,
      newTransaction]

theorem addTransaction_transactions (w : Widget) (e : AddInput) :
    (addTransaction w e).transactions = w.transactions ∨
      ((parseFloat e.amount).isNaN = false ∧
        (addTransaction w e).transactions = w.transactions ++ [newTransaction e]) := by
  by_cases h : jsTrim e.description = "" ∨ (parseFloat e.amount).isNaN = true
  · left
    rw [addTransaction_rejected w e h]
    rfl
  · right
    push_neg at h
    have hn : (parseFloat e.amount).isNaN = false := by simpa using h.2
    exact ⟨hn, addTransaction_accepted w e h.1 hn⟩

theorem deleteTransaction_transactions (w : Widget) (id : JsId) (writeOk : Bool) :
    (deleteTransaction w id writeOk).transactions =
      w.transactions.filter (fun t => !matchesId t id) := by
  unfold deleteTransaction
  simp only [matchesId, Bool.not_not]
  split_ifs
  · cases writeOk <;>
      simp [saveTransactions, showMessage, updateBalance, updateTransactions_transactions]
  · rfl

/-! ## Claims -/

/-- C4: an add whose description is non-empty after trimming and whose amount
text parses to a number yields the previous list, unchanged and in the same
order, followed by exactly one new transaction carrying the generated id, the
trimmed description, the chosen type and the parsed amount printed with two
fractional digits and read back; the length grows by one.  For a finite parsed
amount below `1e21` the stored amount is the double nearest to a whole number
of hundredths that is at most half a hundredth away from the parsed amount
(from `1e21` on `toFixed` prints the number itself). -/
theorem addTransaction_appends (w : Widget) (e : AddInput)
    (hd : jsTrim e.description ≠ "") (hn : (parseFloat e.amount).isNaN = false) :
    (addTransaction w e).transactions =
        w.transactions ++
          [{ id := JsId.num ((e.now.val + e.random.val : Nat) : Int),
             description := jsTrim e.description,
             amount := parseFloat (toFixed2 (parseFloat e.amount)),
             type := e.type }] ∧
      (addTransaction w e).transactions.length = w.transactions.length + 1 ∧
      ∀ q : Rat, parseFloat e.amount = JsNum.fin q → |q| < 10 ^ 21 →
        ∃ n : Int, parseFloat (toFixed2 (parseFloat e.amount)) = toDouble ((n : Rat) / 100) ∧
          |(n : Rat) / 100 - q| ≤ 1 / 200 := by
  have h := addTransaction_accepted w e hd hn
  refine ⟨h, ?_, ?_⟩
  · rw [h, List.length_append, List.length_singleton]
  · intro q hq hlt
    rw [hq, parseFloat, literalValue_toFixed2 q hlt]
    have hnear := roundCents_near |q| (abs_nonneg q)
    generalize roundCents |q| = c at hnear ⊢
    by_cases hneg : q < 0
    · refine ⟨-(c : Int), ?_, ?_⟩
      · simp only [hneg, if_true, JsNum.round]
        congr 1
        push_cast
        ring
      · rw [abs_of_neg hneg, abs_le] at hnear
        push_cast
        rw [abs_le]
        constructor <;> linarith [hnear.1, hnear.2]
    · refine ⟨(c : Int), ?_, ?_⟩
      · simp only [hneg, if_false, JsNum.round]
        congr 1
      · rw [abs_of_nonneg (not_lt.mp hneg)] at hnear
        push_cast
        exact hnear

/-- Witness of C4: the submit `Salary`, `1000.00`, income on the empty widget,
and the submit of the amount text `1.005`, which parses to a double just below
1.005 and is stored as 1. -/
theorem addTransaction_appends_witness :
    jsTrim salary.description ≠ "" ∧ (parseFloat salary.amount).isNaN = false ∧
      (addTransaction emptyWidget salary).transactions =
        [{ id := JsId.num 1730000000005, description := "Salary",
           amount := JsNum.fin 1000, type := TxType.income }] ∧
      (addTransaction emptyWidget halfCent).transactions =
        [{ id := JsId.num 1730000000013, description := "Stamp",
           amount := JsNum.fin 1, type := TxType.expense }] := by
  refine ⟨by decide!, by decide!, ?_, ?_⟩
  · have h := (addTransaction_appends emptyWidget salary (by decide!) (by decide!)).1
    rw [h]
    decide!
  · have h := (addTransaction_appends emptyWidget halfCent (by decide!) (by decide!)).1
    rw [h]
    decide!

/-- C5, as stated, fails: the amount text `Infinity` does not parse to a finite
number, yet the add is accepted: the list grows, a write is made and the
notification is the success one. -/
theorem addTransaction_infinity_accepted :
    (parseFloat bonusInfinity.amount).isFinite = false ∧
      (addTransaction emptyWidget bonusInfinity).transactions =
        [{ id := JsId.num 1730000000007, description := "Bonus",
           amount := JsNum.posInf, type := TxType.income }] ∧
      (addTransaction emptyWidget bonusInfinity).transactions ≠ emptyWidget.transactions ∧
      (addTransaction emptyWidget bonusInfinity).writes = emptyWidget.writes + 1 ∧
      (addTransaction emptyWidget bonusInfinity).messages =
        [{ text := "Transaction added successfully!", type := Severity.success }] := by
  decide!

/-- C5, amended: an add whose description is empty after trimming or whose
amount text parses to `NaN` is rejected: the transaction list, the persisted
slot and the write count are unchanged, and exactly one notification, of error
severity, is added. -/
theorem addTransaction_rejects (w : Widget) (e : AddInput)
    (h : jsTrim e.description = "" ∨ (parseFloat e.amount).isNaN = true) :
    (addTransaction w e).transactions = w.transactions ∧
      (addTransaction w e).slot = w.slot ∧
      (addTransaction w e).writes = w.writes ∧
      (addTransaction w e).messages =
        w.messages ++
          [{ text := "Please enter valid description and amount", type := Severity.error }] := by
  rw [addTransaction_rejected w e h]
  exact ⟨rfl, rfl, rfl, rfl⟩

/-- Witness of amended C5: a blank description with a numeric amount, on the
empty widget. -/
theorem addTransaction_rejects_witness :
    jsTrim "  \t " = "" ∧
      (addTransaction emptyWidget { salary with description := "  \t " }).transactions = [] ∧
      (addTransaction emptyWidget { salary with description := "  \t " }).writes = 0 :=
  ⟨by decide!,
   (addTransaction_rejects emptyWidget { salary with description := "  \t " }
      (Or.inl (by decide!))).1,
   (addTransaction_rejects emptyWidget { salary with description := "  \t " }
      (Or.inl (by decide!))).2.2.1⟩

/-- C1, as stated, fails: when the write of an add fails, the list keeps the
appended transaction and no notification is put on the page. -/
theorem addTransaction_quota_keeps_append :
    salaryQuotaExceeded.writeOk = false ∧
      (addTransaction emptyWidget salaryQuotaExceeded).slot = emptyWidget.slot ∧
      (addTransaction emptyWidget salaryQuotaExceeded).transactions.length = 1 ∧
      (addTransaction emptyWidget salaryQuotaExceeded).transactions ≠ emptyWidget.transactions ∧
      (addTransaction emptyWidget salaryQuotaExceeded).messages = [] := by
  decide!

/-- C1, amended: when the write of an accepted add fails, the in-memory list
is the list before the add followed by the new transaction (the append is not
rolled back), while the persisted slot, the rendered rows and the totals stay
what they were. -/
theorem addTransaction_failed_write (w : Widget) (e : AddInput)
    (hd : jsTrim e.description ≠ "") (hn : (parseFloat e.amount).isNaN = false)
    (hw : e.writeOk = false) :
    (addTransaction w e).transactions = w.transactions ++ [newTransaction e] ∧
      (addTransaction w e).slot = w.slot ∧
      (addTransaction w e).rows = w.rows ∧
      (addTransaction w e).totals = w.totals := by
  refine ⟨addTransaction_accepted w e hd hn, ?_, ?_, ?_⟩ <;>
  · unfold addTransaction
    simp only
    rw [if_neg (by simp [hd, hn])]
    simp [saveTransactions, hw]

/-- Witness of amended C1: the submit `Salary` while the storage refuses the
write. -/
theorem addTransaction_failed_write_witness :
    jsTrim salaryQuotaExceeded.description ≠ "" ∧
      (parseFloat salaryQuotaExceeded.amount).isNaN = false ∧
      salaryQuotaExceeded.writeOk = false ∧
      (addTransaction emptyWidget salaryQuotaExceeded).transactions =
        emptyWidget.transactions ++ [newTransaction salaryQuotaExceeded] ∧
      (addTransaction emptyWidget salaryQuotaExceeded).slot = none :=
  ⟨by decide!, by decide!, by decide!,
   (addTransaction_failed_write emptyWidget salaryQuotaExceeded
      (by decide!) (by decide!) (by decide!)).1,
   (addTransaction_failed_write emptyWidget salaryQuotaExceeded
      (by decide!) (by decide!) (by decide!)).2.1⟩

theorem filter_not_matches_of_none (l : List Transaction) (id : JsId)
    (h : ∀ t ∈ l, matchesId t id = false) :
    l.filter (fun t => !matchesId t id) = l := by
  rw [List.filter_eq_self]
  intro t ht
  simp [h t ht]

/-- C10: deleting an id that matches no entry leaves the list as it was (same
entries, same order, same length), makes no write to the persisted slot, and
adds exactly one notification, of error severity. -/
theorem deleteTransaction_no_match (w : Widget) (id : JsId) (writeOk : Bool)
    (h : ∀ t ∈ w.transactions, matchesId t id = false) :
    (deleteTransaction w id writeOk).transactions = w.transactions ∧
      (deleteTransaction w id writeOk).transactions.length = w.transactions.length ∧
      (deleteTransaction w id writeOk).writes = w.writes ∧
      (deleteTransaction w id writeOk).slot = w.slot ∧
      (deleteTransaction w id writeOk).messages =
        w.messages ++ [{ text := "Failed to delete transaction", type := Severity.error }] := by
  have hf : w.transactions.filter (fun t => strictNe (normalizeId t.id) (normalizeId id)) =
      w.transactions := by
    have := filter_not_matches_of_none w.transactions id h
    simpa [matchesId] using this
  unfold deleteTransaction
  simp only [hf, lt_irrefl, if_false]
  exact ⟨rfl, rfl, rfl, rfl, rfl⟩

/-- Witness of C10: after `Salary` alone, a click carrying the id text `42`. -/
theorem deleteTransaction_no_match_witness :
    (∀ t ∈ (runAdds emptyWidget [salary]).transactions, matchesId t (JsId.str "42") = false) ∧
      (deleteTransaction (runAdds emptyWidget [salary]) (JsId.str "42") true).transactions =
        (runAdds emptyWidget [salary]).transactions ∧
      (deleteTransaction (runAdds emptyWidget [salary]) (JsId.str "42") true).writes =
        (runAdds emptyWidget [salary]).writes :=
  ⟨by decide!,
   (deleteTransaction_no_match (runAdds emptyWidget [salary]) (JsId.str "42") true
      (by decide!)).1,
   (deleteTransaction_no_match (runAdds emptyWidget [salary]) (JsId.str "42") true
      (by decide!)).2.2.1⟩

/-- C2, as stated, fails: `salary` and `rent` are given the same id by
`generateID`, and the click on either row removes both entries. -/
theorem deleteTransaction_removes_both :
    (runAdds emptyWidget [salary, rent]).transactions.length = 2 ∧
      (∃ t ∈ (runAdds emptyWidget [salary, rent]).transactions,
        matchesId t (JsId.str "1730000000005") = true) ∧
      (deleteTransaction (runAdds emptyWidget [salary, rent])
        (JsId.str "1730000000005") true).transactions.length = 0 ∧
      (deleteTransaction (runAdds emptyWidget [salary, rent])
        (JsId.str "1730000000005") true).transactions.length + 1 ≠
        (runAdds emptyWidget [salary, rent]).transactions.length := by
  decide!

theorem strictNe_iff (x y : Option Int) : strictNe x y = true ↔ (x ≠ y ∨ y = none) := by
  cases x <;> cases y <;> simp [strictNe]

theorem remove_once_of_distinct (l : List Transaction) (id : JsId)
    (hocc : ∃ t ∈ l, normalizeId t.id = normalizeId id ∧ normalizeId id ≠ none)
    (hdis : l.Pairwise
      (fun a b => normalizeId a.id ≠ normalizeId b.id ∨ normalizeId b.id = none)) :
    ∃ l1 t l2, l = l1 ++ t :: l2 ∧
      l.filter (fun t => strictNe (normalizeId t.id) (normalizeId id)) = l1 ++ l2 ∧
      normalizeId t.id = normalizeId id := by
  induction l with
  | nil => simp at hocc
  | cons a l ih =>
    rw [List.pairwise_cons] at hdis
    by_cases ha : normalizeId a.id = normalizeId id ∧ normalizeId id ≠ none
    · refine ⟨[], a, l, rfl, ?_, ha.1⟩
      have hhead : strictNe (normalizeId a.id) (normalizeId id) = false := by
        rw [Bool.eq_false_iff, Ne, strictNe_iff]
        push_neg
        exact ha
      rw [List.filter_cons, hhead]
      simp only [Bool.false_eq_true, if_false, List.nil_append]
      rw [List.filter_eq_self]
      intro b hb
      rw [strictNe_iff]
      rcases hdis.1 b hb with h | h
      · left
        rw [← ha.1]
        exact fun e => h e.symm
      · left
        rw [h]
        exact fun e => ha.2 e.symm
    · have hkeep : strictNe (normalizeId a.id) (normalizeId id) = true := by
        rw [strictNe_iff]
        by_contra hc
        push_neg at hc
        exact ha hc
      have hocc2 : ∃ t ∈ l, normalizeId t.id = normalizeId id ∧ normalizeId id ≠ none := by
        rcases hocc with ⟨t, ht, hm⟩
        rcases List.mem_cons.mp ht with rfl | ht
        · exact absurd hm ha
        · exact ⟨t, ht, hm⟩
      obtain ⟨l1, t, l2, h1, h2, h3⟩ := ih hocc2 hdis.2
      refine ⟨a :: l1, t, l2, by rw [h1]; rfl, ?_, h3⟩
      rw [List.filter_cons, hkeep, if_pos rfl, h2]
      rfl

/-- C2, amended: `deleteTransaction` removes exactly the entries whose
normalised id is the normalised id given (a number, not `NaN`): the result
keeps the other entries in their order and is shorter by the number of entries
removed; when the normalised ids of the list are pairwise different and the id
occurs in it, exactly one entry is removed and every other entry stays in
place. -/
theorem deleteTransaction_removes_matches (w : Widget) (id : JsId) (writeOk : Bool) :
    (deleteTransaction w id writeOk).transactions.Sublist w.transactions ∧
      (∀ t, t ∈ (deleteTransaction w id writeOk).transactions ↔
        t ∈ w.transactions ∧ ¬ (normalizeId t.id = normalizeId id ∧ normalizeId id ≠ none)) ∧
      (deleteTransaction w id writeOk).transactions.length +
          w.transactions.countP
            (fun t => decide (normalizeId t.id = normalizeId id ∧ normalizeId id ≠ none)) =
        w.transactions.length ∧
      ((∃ t ∈ w.transactions, normalizeId t.id = normalizeId id ∧ normalizeId id ≠ none) →
        w.transactions.Pairwise
          (fun a b => normalizeId a.id ≠ normalizeId b.id ∨ normalizeId b.id = none) →
        ∃ l1 t l2, w.transactions = l1 ++ t :: l2 ∧
          (deleteTransaction w id writeOk).transactions = l1 ++ l2 ∧
          normalizeId t.id = normalizeId id ∧
          (deleteTransaction w id writeOk).transactions.length + 1 =
            w.transactions.length) := by
  have hpred : (fun t : Transaction => !matchesId t id) =
      (fun t => strictNe (normalizeId t.id) (normalizeId id)) := by
    funext t
    simp [matchesId]
  have hkeep : ∀ t : Transaction, strictNe (normalizeId t.id) (normalizeId id) = true ↔
      ¬ (normalizeId t.id = normalizeId id ∧ normalizeId id ≠ none) := by
    intro t
    rw [strictNe_iff]
    constructor
    · rintro (h | h) ⟨h1, h2⟩
      · exact h h1
      · exact h2 h
    · intro h
      by_contra hc
      push_neg at hc
      exact h hc
  rw [deleteTransaction_transactions, hpred]
  refine ⟨List.filter_sublist _, ?_, ?_, ?_⟩
  · intro t
    rw [List.mem_filter, hkeep]
  · have h := List.length_eq_countP_add_countP
      (fun t : Transaction =>
        decide (normalizeId t.id = normalizeId id ∧ normalizeId id ≠ none))
      (l := w.transactions)
    rw [List.countP_eq_length_filter (fun t : Transaction =>
      decide (¬ (decide (normalizeId t.id = normalizeId id ∧ normalizeId id ≠ none)) = true))] at h
    have e : w.transactions.filter (fun t : Transaction =>
        decide (¬ (decide (normalizeId t.id = normalizeId id ∧ normalizeId id ≠ none)) = true)) =
        w.transactions.filter (fun t => strictNe (normalizeId t.id) (normalizeId id)) := by
      apply List.filter_congr
      intro t _
      by_cases hs : strictNe (normalizeId t.id) (normalizeId id) = true
      · have := (hkeep t).mp hs
        simp [hs, this]
      · have hn : normalizeId t.id = normalizeId id ∧ normalizeId id ≠ none := by
          by_contra hc
          exact hs ((hkeep t).mpr hc)
        have hs2 : strictNe (normalizeId t.id) (normalizeId id) = false := by
          simpa using hs
        rw [hs2]
        simp [hn]
    rw [e] at h
    omega
  · intro hocc hdis
    obtain ⟨l1, t, l2, h1, h2, h3⟩ := remove_once_of_distinct w.transactions id hocc hdis
    refine ⟨l1, t, l2, h1, h2, h3, ?_⟩
    rw [h2, h1]
    simp only [List.length_append, List.length_cons]
    omega

/-- Witness of amended C2: after `Salary` and `Groceries`, whose ids differ,
the click on the row of `Salary` removes that entry and leaves `Groceries`. -/
theorem deleteTransaction_removes_matches_witness :
    (∃ t ∈ (runAdds emptyWidget [salary, groceries]).transactions,
        normalizeId t.id = normalizeId (JsId.str "1730000000005") ∧
          normalizeId (JsId.str "1730000000005") ≠ none) ∧
      (runAdds emptyWidget [salary, groceries]).transactions.Pairwise
        (fun a b => normalizeId a.id ≠ normalizeId b.id ∨ normalizeId b.id = none) ∧
      (runAdds emptyWidget [salary, groceries]).transactions.length = 2 ∧
      (deleteTransaction (runAdds emptyWidget [salary, groceries])
        (JsId.str "1730000000005") true).transactions =
        [{ id := JsId.num 1730000001321, description := "Groceries",
           amount := JsNum.fin (91 / 2), type := TxType.expense }] ∧
      ∃ l1 t l2, (runAdds emptyWidget [salary, groceries]).transactions = l1 ++ t :: l2 ∧
        (deleteTransaction (runAdds emptyWidget [salary, groceries])
          (JsId.str "1730000000005") true).transactions = l1 ++ l2 ∧
        normalizeId t.id = normalizeId (JsId.str "1730000000005") ∧
        (deleteTransaction (runAdds emptyWidget [salary, groceries])
          (JsId.str "1730000000005") true).transactions.length + 1 =
          (runAdds emptyWidget [salary, groceries]).transactions.length :=
  ⟨by decide!, by decide!, by decide!, by decide!,
   (deleteTransaction_removes_matches (runAdds emptyWidget [salary, groceries])
      (JsId.str "1730000000005") true).2.2.2 (by decide!) (by decide!)⟩

theorem foldl_invariant {α β : Type} (P : α → Prop) (f : α → β → α) (l : List β)
    (hstep : ∀ a, P a → ∀ b ∈ l, P (f a b)) : ∀ a, P a → P (l.foldl f a) := by
  induction l with
  | nil => intro a ha; exact ha
  | cons b l ih =>
    intro a ha
    rw [List.foldl_cons]
    exact ih (fun a0 h0 b0 hb0 => hstep a0 h0 b0 (List.mem_cons_of_mem b hb0)) _
      (hstep a ha b (List.mem_cons_self b l))

/-- C6, as stated, fails: the add of the amount text `-5` stores the amount
`-5`. -/
theorem addTransaction_stores_negative :
    (run emptyWidget [Op.add negativeExpense]).transactions =
        [{ id := JsId.num 1730000000011, description := "Coffee",
           amount := JsNum.fin (-5), type := TxType.expense }] ∧
      ∃ t ∈ (run emptyWidget [Op.add negativeExpense]).transactions,
        t.amount.geZero = false := by
  decide!

/-- C6, amended: in every state reached from an empty list by adds and
deletes in which no add has an amount text that parses to a negative number,
every transaction of the list has an amount `>= 0`, whatever its type. -/
theorem run_amounts_nonneg (w0 : Widget) (ops : List Op) (h0 : w0.transactions = [])
    (hops : ∀ e, Op.add e ∈ ops → (parseFloat e.amount).ltZero = false) :
    ∀ t ∈ (run w0 ops).transactions, t.amount.geZero = true := by
  unfold run
  apply foldl_invariant (fun w : Widget => ∀ t ∈ w.transactions, t.amount.geZero = true)
  · intro w hw op hop t ht
    cases op with
    | add e =>
      rcases addTransaction_transactions w e with h | ⟨hn, h⟩
      · rw [step, h] at ht; exact hw t ht
      · rw [step, h, List.mem_append, List.mem_singleton] at ht
        rcases ht with ht | rfl
        · exact hw t ht
        · exact parseFloat_toFixed2_geZero _ hn (hops e hop)
    | delete id writeOk =>
      rw [step, deleteTransaction_transactions] at ht
      exact hw t (List.mem_of_mem_filter ht)
  · intro t ht
    rw [h0] at ht
    simp at ht

/-- Witness of amended C6: `Salary`, a click that deletes it, then `Rent`. -/
theorem run_amounts_nonneg_witness :
    emptyWidget.transactions = [] ∧
      (∀ e, Op.add e ∈ salaryDeleteRent → (parseFloat e.amount).ltZero = false) ∧
      ∀ t ∈ (run emptyWidget salaryDeleteRent).transactions, t.amount.geZero = true :=
  have h : ∀ e, Op.add e ∈ salaryDeleteRent → (parseFloat e.amount).ltZero = false := by
    intro e he
    simp only [salaryDeleteRent, List.mem_cons, Op.add.injEq, List.mem_singleton,
      List.not_mem_nil, or_false, reduceCtorEq, false_or] at he
    rcases he with rfl | rfl <;> decide!
  ⟨rfl, h, run_amounts_nonneg emptyWidget salaryDeleteRent rfl h⟩

/-- C9: under each filter the list element shows, in their original order, the
rows of exactly the transactions the filter keeps (type income for `income`,
type expense for `expense`, all of them for `all`), one `li` per transaction
with its class name and its markup, or the single placeholder row when the
filter keeps none; choosing a filter does not change the list.  On `Salary`
then `Rent`, the filter `expense` shows the row of `Rent` alone. -/
theorem updateFilter_rows (w : Widget) :
    (∀ filter : Filter,
      (updateFilter w filter).transactions = w.transactions ∧
      (updateFilter w filter).currentFilter = filter ∧
      ((Row.text "no-transactions" "No transactions found" ∈ (updateFilter w filter).rows) ↔
        (match filter with
          | Filter.all => w.transactions
          | Filter.income => w.transactions.filter (fun t => t.type = TxType.income)
          | Filter.expense => w.transactions.filter (fun t => t.type = TxType.expense)) = []) ∧
      (updateFilter w filter).rows =
        (if (match filter with
            | Filter.all => w.transactions
            | Filter.income => w.transactions.filter (fun t => t.type = TxType.income)
            | Filter.expense => w.transactions.filter (fun t => t.type = TxType.expense)) = []
        then [Row.text "no-transactions" "No transactions found"]
        else
          (match filter with
            | Filter.all => w.transactions
            | Filter.income => w.transactions.filter (fun t => t.type = TxType.income)
            | Filter.expense => w.transactions.filter (fun t => t.type = TxType.expense)).map
            (fun t : Transaction => Row.html
              ("transaction-item " ++ (if t.type = TxType.income then "income" else "expense"))
              ("\n                <div class=\"transaction-details\">" ++
               "\n                    <p class=\"transaction-description\">" ++
               t.description ++ "</p>" ++
               "\n                </div>" ++
               "\n                <div class=\"transaction-amount\">" ++
               "\n                    " ++ (if t.type = TxType.income then "+" else "-") ++
               "FCFA " ++ toFixed2 t.amount.abs ++
               "\n                </div>" ++
               "\n                <button class=\"delete-btn\" data-id=\"" ++ t.id.text ++
               "\">Ã—</button>" ++
               "\n            ")))) ∧
    (updateFilter (runAdds emptyWidget [salary, rent]) Filter.expense).rows =
      [Row.html "transaction-item expense"
        ("\n                <div class=\"transaction-details\">" ++
         "\n                    <p class=\"transaction-description\">Rent</p>" ++
         "\n                </div>" ++
         "\n                <div class=\"transaction-amount\">" ++
         "\n                    -FCFA 300.00" ++
         "\n                </div>" ++
         "\n                <button class=\"delete-btn\" data-id=\"1730000000005\">" ++
         "Ã—</button>" ++
         "\n            ")] := by
  have hinc : (fun t : Transaction => typeIsFilter t.type Filter.income) =
      (fun t => decide (t.type = TxType.income)) := by
    funext t; cases t.type <;> rfl
  have hexp : (fun t : Transaction => typeIsFilter t.type Filter.expense) =
      (fun t => decide (t.type = TxType.expense)) := by
    funext t; cases t.type <;> rfl
  have hrow : ∀ t : Transaction, renderRow t = Row.html
      ("transaction-item " ++ (if t.type = TxType.income then "income" else "expense"))
      ("\n                <div class=\"transaction-details\">" ++
       "\n                    <p class=\"transaction-description\">" ++
       t.description ++ "</p>" ++
       "\n                </div>" ++
       "\n                <div class=\"transaction-amount\">" ++
       "\n                    " ++ (if t.type = TxType.income then "+" else "-") ++
       "FCFA " ++ toFixed2 t.amount.abs ++
       "\n                </div>" ++
       "\n                <button class=\"delete-btn\" data-id=\"" ++ t.id.text ++
       "\">Ã—</button>" ++
       "\n            ") := by
    intro t
    unfold renderRow
    cases t.type <;> rfl
  have hfun : renderRow = fun t => _ := funext hrow
  have hmem : ∀ l : List Transaction,
      Row.text "no-transactions" "No transactions found" ∈
        (if l = [] then [Row.text "no-transactions" "No transactions found"]
          else l.map renderRow) ↔ l = [] := by
    intro l
    cases l with
    | nil => simp
    | cons a l => simp [hrow]
  refine ⟨?_, by decide!⟩
  intro filter
  refine ⟨updateTransactions_transactions _, ?_, ?_⟩
  · unfold updateFilter updateTransactions
    simp only
    split_ifs <;> rfl
  · have hrows : (updateFilter w filter).rows =
        (if (match filter with
            | Filter.all => w.transactions
            | Filter.income => w.transactions.filter (fun t => t.type = TxType.income)
            | Filter.expense => w.transactions.filter (fun t => t.type = TxType.expense)) = []
          then [Row.text "no-transactions" "No transactions found"]
          else (match filter with
            | Filter.all => w.transactions
            | Filter.income => w.transactions.filter (fun t => t.type = TxType.income)
            | Filter.expense =>
              w.transactions.filter (fun t => t.type = TxType.expense)).map renderRow) := by
      cases filter <;>
        simp only [updateFilter, updateTransactions, hinc, hexp, reduceCtorEq, if_true,
          if_false, List.length_eq_zero] <;>
        split_ifs <;> rfl
    rw [hrows]
    refine ⟨hmem _, ?_⟩
    rw [hfun]

/-! ## Start-up -/

theorem toDouble_five : toDouble 5 = JsNum.fin 5 := by decide!

/-- C3, evaluated on the code: with the text `{oops` in the slot, the first
statement of the start-up code throws a `SyntaxError`, so the handler ends
there; with the text `5` it makes the number 5 the value of `transactions`;
an absent slot gives the empty list. -/
theorem loadTransactions_malformed :
    loadTransactions (some "\x7boops") = some (Except.error JsError.syntaxError) ∧
      loadTransactions (some "5") = some (Except.ok (Json.num (JsNum.fin 5))) ∧
      loadTransactions none = some (Except.ok (Json.arr [])) := by
  refine ⟨rfl, ?_, rfl⟩
  have h1 : jsonParse "5" = some (Except.ok (Json.num (toDouble 5))) := rfl
  rw [toDouble_five] at h1
  unfold loadTransactions
  simp only [Option.getD]
  rw [h1]
  rfl

/-! ## The totals -/

/-- C8, evaluated on the code: after the add of `Refund`, `-5`, income the
list holds one income transaction of amount `-5`; `updateTransactions` shows
it by its type, as `+FCFA 5.00`, while `updateBalance` counts it by its sign:
income total `0.00`, expense total `5.00`, balance `-5.00`. -/
theorem updateBalance_negative_income :
    (runAdds emptyWidget [refund]).transactions =
        [{ id := JsId.num 1730000000009, description := "Refund",
           amount := JsNum.fin (-5), type := TxType.income }] ∧
      (runAdds emptyWidget [refund]).rows =
        [Row.html "transaction-item income"
          ("\n                <div class=\"transaction-details\">" ++
           "\n                    <p class=\"transaction-description\">Refund</p>" ++
           "\n                </div>" ++
           "\n                <div class=\"transaction-amount\">" ++
           "\n                    +FCFA 5.00" ++
           "\n                </div>" ++
           "\n                <button class=\"delete-btn\" data-id=\"1730000000009\">" ++
           "Ã—</button>" ++
           "\n            ")] ∧
      (runAdds emptyWidget [refund]).totals =
        { balance := "-5.00", income := "0.00", expense := "5.00", incomeColor := false } := by
  decide!

theorem updateBalance_totals (w : Widget) :
    (updateBalance w).totals.balance = toFixed2 (reduceSum (w.transactions.map signedAmount)) ∧
      (updateBalance w).totals.income =
        toFixed2 (reduceSum ((w.transactions.map signedAmount).filter (fun a => a.gtZero))) ∧
      (updateBalance w).totals.expense =
        toFixed2 (reduceSum ((w.transactions.map signedAmount).filter (fun a => a.ltZero))).abs :=
  ⟨rfl, rfl, rfl⟩

theorem centsNum_neg (c : Int) : (centsNum c).neg = centsNum (-c) := by
  unfold centsNum
  rw [← toDouble_neg]
  congr 1
  push_cast
  ring

theorem stored_cents (q : Rat) (hq : |q| ≤ 1000000) :
    ∃ c : Int, |c| ≤ 10 ^ 8 ∧ parseFloat (toFixed2 (JsNum.fin q)) = centsNum c := by
  have hlt : |q| < 10 ^ 21 := lt_of_le_of_lt hq (by norm_num)
  have hn : roundCents |q| ≤ 10 ^ 8 := by
    unfold roundCents
    rw [floor_eq]
    have h1 : ⌊|q| * 100 + 1 / 2⌋ ≤ 10 ^ 8 := by
      have : ⌊|q| * 100 + 1 / 2⌋ < 10 ^ 8 + 1 := by
        rw [Int.floor_lt]
        push_cast
        linarith
      omega
    omega
  have hnz : ((roundCents |q| : Nat) : Int) ≤ 10 ^ 8 := by exact_mod_cast hn
  rw [parseFloat, literalValue_toFixed2 q hlt]
  by_cases hneg : q < 0
  · refine ⟨-(roundCents |q| : Int), ?_, ?_⟩
    · rw [abs_neg, abs_of_nonneg (Int.natCast_nonneg _)]
      exact hnz
    · simp only [hneg, if_true, JsNum.round, centsNum]
      congr 1
      push_cast
      ring
  · refine ⟨(roundCents |q| : Int), ?_, ?_⟩
    · rw [abs_of_nonneg (Int.natCast_nonneg _)]
      exact hnz
    · simp only [hneg, if_false, JsNum.round, centsNum]
      congr 1

theorem runAdds_cents (w0 : Widget) (es : List AddInput) (h0 : w0.transactions = [])
    (hes : ∀ e ∈ es, withinMillion (parseFloat e.amount) = true) :
    ∀ t ∈ (runAdds w0 es).transactions, ∃ c : Int, |c| ≤ 10 ^ 8 ∧ t.amount = centsNum c := by
  unfold runAdds
  apply foldl_invariant
    (fun w : Widget => ∀ t ∈ w.transactions, ∃ c : Int, |c| ≤ 10 ^ 8 ∧ t.amount = centsNum c)
  · intro w hw e he t ht
    rcases addTransaction_transactions w e with h | ⟨hn, h⟩
    · rw [h] at ht; exact hw t ht
    · rw [h, List.mem_append, List.mem_singleton] at ht
      rcases ht with ht | rfl
      · exact hw t ht
      · have hb := hes e he
        show ∃ c : Int, |c| ≤ 10 ^ 8 ∧ parseFloat (toFixed2 (parseFloat e.amount)) = centsNum c
        cases hx : parseFloat e.amount with
        | nan => rw [hx] at hn; simp [JsNum.isNaN] at hn
        | posInf => rw [hx] at hb; simp [withinMillion] at hb
        | negInf => rw [hx] at hb; simp [withinMillion] at hb
        | fin q =>
          rw [hx] at hb
          simp only [withinMillion, decide_eq_true_eq] at hb
          exact stored_cents q hb
  · intro t ht
    rw [h0] at ht
    simp at ht

theorem runAdds_length (es : List AddInput) :
    ∀ w : Widget, (runAdds w es).transactions.length ≤ w.transactions.length + es.length := by
  induction es with
  | nil => intro w; simp [runAdds]
  | cons e es ih =>
    intro w
    have h1 := ih (addTransaction w e)
    have h2 : (addTransaction w e).transactions.length ≤ w.transactions.length + 1 := by
      rcases addTransaction_transactions w e with h | ⟨_, h⟩ <;> rw [h] <;> simp
    simp only [runAdds, List.foldl_cons, List.length_cons] at h1 ⊢
    omega

theorem exists_cents_list (l : List Transaction)
    (h : ∀ t ∈ l, ∃ c : Int, |c| ≤ 10 ^ 8 ∧ t.amount = centsNum c) :
    ∃ D : List Int, l.map signedAmount = D.map centsNum ∧ D.length = l.length ∧
      ∀ c ∈ D, |c| ≤ 10 ^ 8 := by
  induction l with
  | nil => exact ⟨[], rfl, rfl, by simp⟩
  | cons t l ih =>
    obtain ⟨D, h1, h2, h3⟩ := ih (fun x hx => h x (List.mem_cons_of_mem t hx))
    obtain ⟨c, hc, hct⟩ := h t (List.mem_cons_self t l)
    by_cases hty : t.type = TxType.income
    · refine ⟨c :: D, ?_, by simp [h2], ?_⟩
      · simp [signedAmount, hty, hct, h1]
      · intro x hx
        rcases List.mem_cons.mp hx with rfl | hx
        · exact hc
        · exact h3 x hx
    · refine ⟨-c :: D, ?_, by simp [h2], ?_⟩
      · simp [signedAmount, hty, hct, h1, centsNum_neg]
      · intro x hx
        rcases List.mem_cons.mp hx with rfl | hx
        · rw [abs_neg]; exact hc
        · exact h3 x hx

theorem filter_centsNum (D : List Int) (hD : ∀ c ∈ D, |c| ≤ 10 ^ 8) :
    (D.map centsNum).filter (fun a => a.gtZero) = (D.filter (fun c => decide (0 < c))).map centsNum ∧
      (D.map centsNum).filter (fun a => a.ltZero) =
        (D.filter (fun c => decide (c < 0))).map centsNum := by
  induction D with
  | nil => exact ⟨rfl, rfl⟩
  | cons c D ih =>
    obtain ⟨ih1, ih2⟩ := ih (fun x hx => hD x (List.mem_cons_of_mem c hx))
    obtain ⟨r, hr, _, hpos, hneg, hzero⟩ := centsNum_spec c (hD c (List.mem_cons_self c D))
    have hg : (centsNum c).gtZero = decide (0 < c) := by
      rw [hr]
      simp only [JsNum.gtZero]
      rcases lt_trichotomy c 0 with h | h | h
      · have := hneg h
        have h1 : ¬ 0 < r := by linarith
        have h2 : ¬ 0 < c := by omega
        simp [h1, h2]
      · have := hzero h
        subst h
        simp [this]
      · simp [h, hpos h]
    have hl : (centsNum c).ltZero = decide (c < 0) := by
      rw [hr]
      simp only [JsNum.ltZero]
      rcases lt_trichotomy c 0 with h | h | h
      · simp [h, hneg h]
      · have := hzero h
        subst h
        simp [this]
      · have := hpos h
        have h1 : ¬ r < 0 := by linarith
        have h2 : ¬ c < 0 := by omega
        simp [h1, h2]
    simp only [List.map_cons, List.filter_cons, hg, hl, ih1, ih2]
    constructor <;> split_ifs <;> rfl

theorem sum_split_by_sign (D : List Int) :
    D.sum = (D.filter (fun c => decide (0 < c))).sum + (D.filter (fun c => decide (c < 0))).sum ∧
      (D.filter (fun c => decide (c < 0))).sum ≤ 0 := by
  induction D with
  | nil => simp
  | cons c D ih =>
    obtain ⟨ih1, ih2⟩ := ih
    simp only [List.filter_cons, List.sum_cons, decide_eq_true_eq]
    rcases lt_trichotomy c 0 with h | h | h
    · have h2 : ¬ 0 < c := by omega
      simp only [h, h2, if_true, if_false, List.sum_cons]
      constructor <;> omega
    · subst h
      simp only [lt_irrefl, if_false]
      constructor <;> omega
    · have h2 : ¬ c < 0 := by omega
      simp only [h, h2, if_true, if_false, List.sum_cons]
      constructor <;> omega

theorem abs_sum_le (D : List Int) (hD : ∀ c ∈ D, |c| ≤ 10 ^ 8) :
    |D.sum| ≤ D.length * 10 ^ 8 := by
  induction D with
  | nil => simp
  | cons c D ih =>
    have h1 := ih (fun x hx => hD x (List.mem_cons_of_mem c hx))
    have h2 := hD c (List.mem_cons_self c D)
    have h3 := abs_add c D.sum
    simp only [List.sum_cons, List.length_cons]
    push_cast
    linarith

/-- C7, as stated, fails: after the adds `9007199254740992` income, `1`
expense, `1` income (each stored as it was typed) `updateBalance` prints the
balance `9007199254740992.00`, the income total `9007199254740992.00` and the
expense total `1.00`: the sum of the two incomes is rounded to a double, and
the balance is not the income total minus the expense total. -/
theorem updateBalance_large_sum :
    (runAdds emptyWidget largeThenUnits).transactions.map (fun t => (t.type, t.amount)) =
        [(TxType.income, JsNum.fin 9007199254740992), (TxType.expense, JsNum.fin 1),
         (TxType.income, JsNum.fin 1)] ∧
      (updateBalance (runAdds emptyWidget largeThenUnits)).totals =
        { balance := "9007199254740992.00", income := "9007199254740992.00",
          expense := "1.00", incomeColor := true } ∧
      literalValue "9007199254740992.00" = JsNum.fin 9007199254740992 ∧
      literalValue "1.00" = JsNum.fin 1 ∧
      (9007199254740992 : Rat) ≠ 9007199254740992 - 1 := by
  decide!

/-- C7, amended: for every list reached from the empty list by a sequence of
at most 1000 adds whose amount texts parse to `NaN` or to a number of
magnitude at most 1,000,000, the three texts computed by `updateBalance` are
decimal numbers with two fractional digits that satisfy
`balance = income_total - expense_total`. -/
theorem updateBalance_balance_eq (w0 : Widget) (es : List AddInput)
    (h0 : w0.transactions = []) (hlen : es.length ≤ 1000)
    (hes : ∀ e ∈ es, withinMillion (parseFloat e.amount) = true) :
    ∃ b i x : Int,
      literalValue (updateBalance (runAdds w0 es)).totals.balance = JsNum.fin ((b : Rat) / 100) ∧
      literalValue (updateBalance (runAdds w0 es)).totals.income = JsNum.fin ((i : Rat) / 100) ∧
      literalValue (updateBalance (runAdds w0 es)).totals.expense = JsNum.fin ((x : Rat) / 100) ∧
      (b : Rat) / 100 = (i : Rat) / 100 - (x : Rat) / 100 := by
  have hinv := runAdds_cents w0 es h0 hes
  have hl := runAdds_length es w0
  rw [h0] at hl
  simp only [List.length_nil, zero_add] at hl
  obtain ⟨D, hD1, hD2, hD3⟩ := exists_cents_list (runAdds w0 es).transactions hinv
  have hDlen : D.length ≤ 1000 := by omega
  obtain ⟨hb, hi, hx⟩ := updateBalance_totals (runAdds w0 es)
  obtain ⟨hfp, hfn⟩ := filter_centsNum D hD3
  obtain ⟨hsplit, hnonpos⟩ := sum_split_by_sign D
  rw [hD1] at hb hi hx
  rw [hfp] at hi
  rw [hfn] at hx
  -- the three sums are within a twentieth of a hundredth of the exact ones
  have hsub : ∀ (p : Int → Bool), (D.filter p).length ≤ 1000 ∧
      ∀ c ∈ D.filter p, |c| ≤ 10 ^ 8 := by
    intro p
    exact ⟨le_trans (List.length_filter_le p D) hDlen,
      fun c hc => hD3 c (List.mem_of_mem_filter hc)⟩
  have hbig : ∀ (E : List Int), E.length ≤ 1000 → (∀ c ∈ E, |c| ≤ 10 ^ 8) →
      |E.sum| ≤ 10 ^ 12 := by
    intro E h1 h2
    have h3 := abs_sum_le E h2
    have h4 : (E.length : Int) ≤ 1000 := by exact_mod_cast h1
    have h5 : (E.length : Int) * 10 ^ 8 ≤ 1000 * 10 ^ 8 :=
      mul_le_mul_of_nonneg_right h4 (by norm_num)
    have h6 : (1000 : Int) * 10 ^ 8 ≤ 10 ^ 12 := by norm_num
    linarith
  obtain ⟨s, hs1, hs2⟩ := reduceSum_near D hDlen hD3
  obtain ⟨sp, hp1, hp2⟩ := reduceSum_near (D.filter (fun c => decide (0 < c)))
    (hsub _).1 (hsub _).2
  obtain ⟨sn, hn1, hn2⟩ := reduceSum_near (D.filter (fun c => decide (c < 0)))
    (hsub _).1 (hsub _).2
  have hB := (literalValue_toFixed2_near s D.sum (hbig D hDlen hD3) hs2).1
  have hI := (literalValue_toFixed2_near sp _ (hbig _ (hsub _).1 (hsub _).2) hp2).1
  have hX := (literalValue_toFixed2_near sn _ (hbig _ (hsub _).1 (hsub _).2) hn2).2
  refine ⟨D.sum, (D.filter (fun c => decide (0 < c))).sum,
    -(D.filter (fun c => decide (c < 0))).sum, ?_, ?_, ?_, ?_⟩
  · rw [hb, hs1]; exact hB
  · rw [hi, hp1]; exact hI
  · rw [hx, hn1, hX]
    congr 1
    have : (((D.filter (fun c => decide (c < 0))).sum : Int) : Rat) ≤ 0 := by
      exact_mod_cast hnonpos
    rw [abs_of_nonpos this]
    push_cast
    ring
  · have : ((D.sum : Int) : Rat) = (((D.filter (fun c => decide (0 < c))).sum : Int) : Rat) +
        (((D.filter (fun c => decide (c < 0))).sum : Int) : Rat) := by
      exact_mod_cast hsplit
    rw [this]
    push_cast
    ring

/-- Witness of amended C7: `Salary` then `Rent`: balance 700.00, income
1000.00, expense 300.00. -/
theorem updateBalance_balance_eq_witness :
    emptyWidget.transactions = [] ∧ [salary, rent].length ≤ 1000 ∧
      (∀ e ∈ [salary, rent], withinMillion (parseFloat e.amount) = true) ∧
      (updateBalance (runAdds emptyWidget [salary, rent])).totals =
        { balance := "700.00", income := "1000.00", expense := "300.00",
          incomeColor := true } ∧
      ∃ b i x : Int,
        literalValue (updateBalance (runAdds emptyWidget [salary, rent])).totals.balance =
          JsNum.fin ((b : Rat) / 100) ∧
        literalValue (updateBalance (runAdds emptyWidget [salary, rent])).totals.income =
          JsNum.fin ((i : Rat) / 100) ∧
        literalValue (updateBalance (runAdds emptyWidget [salary, rent])).totals.expense =
          JsNum.fin ((x : Rat) / 100) ∧
        (b : Rat) / 100 = (i : Rat) / 100 - (x : Rat) / 100 :=
  ⟨rfl, by decide, by decide!, by decide!,
   updateBalance_balance_eq emptyWidget [salary, rent] rfl (by decide) (by decide!)⟩

end ExpenseTracker
